import Mathlib

/-!
Verification of the msdfgen TypeScript port (multi-channel signed distance
field generator): a shallow embedding of the core library over exact reals,
with theorems checking the specified behaviour of the polynomial solvers,
the edge-segment kernel, the shape model, the distance selectors and contour
combiners, the generator loop, and the edge-coloring algorithms.

Numbers are modelled by `ℝ` (the code computes in IEEE doubles; all claims
checked here are exact-arithmetic statements, and every concrete input used
below evaluates identically in doubles).  JavaScript `undefined` and the
`NaN` it produces when added to a number are modelled by `Option ℝ` with
`none` standing for undefined/NaN.  The balanced trichotomy used by the edge
coloring is stated over `ℚ` (its inputs are small integers and every value it
takes below is exactly representable in doubles).
-/

namespace Msdf

attribute [local instance] Classical.propDecidable

noncomputable section

/-! ## JavaScript numeric helpers -/

/-- Math.sign: 1 for positive, -1 for negative, 0 for zero. -/
def jsSign (x : ℝ) : ℝ := if 0 < x then 1 else if x < 0 then -1 else 0

/-- Helper from edge-segments: `2 * (n > 0 ? 1 : 0) - 1`, i.e. 1 for positive
values and -1 for non-positive values. -/
def nonZeroSign (n : ℝ) : ℝ := 2 * (if 0 < n then 1 else 0) - 1

/-- Number.MAX_VALUE, the largest finite double: `(2 - 2^-52) * 2^1023`. -/
def MAX_VALUE : ℝ := 2 ^ 1024 - 2 ^ 971

/-- Linear interpolation of scalars: `a + t * (b - a)` (Vector2.ts `mix`). -/
def mix (a b t : ℝ) : ℝ := a + t * (b - a)

/-! ## Vector2 -/

/-- A 2-dimensional vector / point (Vector2.ts). -/
structure Vector2 where
  x : ℝ
  y : ℝ

/-- Vector sum (Vector2.add). -/
def Vector2.add (a b : Vector2) : Vector2 := ⟨a.x + b.x, a.y + b.y⟩

/-- Vector difference (Vector2.subtract). -/
def Vector2.subtract (a b : Vector2) : Vector2 := ⟨a.x - b.x, a.y - b.y⟩

/-- Componentwise product (Vector2.mul). -/
def Vector2.mul (a b : Vector2) : Vector2 := ⟨a.x * b.x, a.y * b.y⟩

/-- Componentwise quotient (Vector2.div). -/
def Vector2.div (a b : Vector2) : Vector2 := ⟨a.x / b.x, a.y / b.y⟩

/-- Scaling by a scalar (Vector2.scale / multiply). -/
def Vector2.scale (a : Vector2) (v : ℝ) : Vector2 := ⟨a.x * v, a.y * v⟩

/-- Squared length (Vector2.squaredLength). -/
def Vector2.squaredLength (a : Vector2) : ℝ := a.x * a.x + a.y * a.y

/-- Euclidean length (Vector2.length). -/
def Vector2.length (a : Vector2) : ℝ := Real.sqrt (a.x * a.x + a.y * a.y)

/-- Normalization (Vector2.normalize): for a zero vector, returns (0,0) when
`allowZero` and (0,1) otherwise. -/
def Vector2.normalize (a : Vector2) (allowZero : Bool := false) : Vector2 :=
  let len := a.length
  if len ≠ 0 then ⟨a.x / len, a.y / len⟩
  else ⟨0, if allowZero then 0 else 1⟩

/-- Unit orthogonal vector (Vector2.getOrthonormal). -/
def Vector2.getOrthonormal (a : Vector2) (polarity : Bool := true)
    (allowZero : Bool := false) : Vector2 :=
  let len := a.length
  if len ≠ 0 then
    if polarity then ⟨-a.y / len, a.x / len⟩ else ⟨a.y / len, -a.x / len⟩
  else
    let sign : ℝ := if allowZero then 0 else 1
    if polarity then ⟨0, sign⟩ else ⟨0, -sign⟩

/-- Exact equality test (Vector2.equals). -/
def Vector2.equals (a b : Vector2) : Prop := a.x = b.x ∧ a.y = b.y

/-- Dot product (Vector2.ts dotProduct). -/
def dotProduct (a b : Vector2) : ℝ := a.x * b.x + a.y * b.y

/-- 2-D cross product (Vector2.ts crossProduct). -/
def crossProduct (a b : Vector2) : ℝ := a.x * b.y - a.y * b.x

/-- Linear interpolation of vectors (Vector2.ts `mix` overload). -/
def Vector2.mix (a b : Vector2) (t : ℝ) : Vector2 :=
  ⟨a.x + t * (b.x - a.x), a.y + t * (b.y - a.y)⟩

/-- Negation of a vector (Vector2.negate). -/
def Vector2.negate (a : Vector2) : Vector2 := ⟨-a.x, -a.y⟩

/-! ## Signed distances (SignedDistance.ts, MultiDistance.ts,
MultiAndTrueDistance.ts) -/

/-- Signed distance plus the `dot` tie-breaker (SignedDistance.ts). -/
structure SignedDistance where
  distance : ℝ
  dot : ℝ

/-- Ordering of signed distances: by absolute distance, then by dot
(SignedDistance.lessThan). -/
def SignedDistance.lessThan (a b : SignedDistance) : Prop :=
  |a.distance| < |b.distance| ∨ (|a.distance| = |b.distance| ∧ a.dot < b.dot)

/-- Three-channel signed distance (MultiDistance.ts). -/
structure MultiDistance where
  r : ℝ
  g : ℝ
  b : ℝ

/-- Median of the three channels: `max(min(r,g), min(max(r,g), b))`
(MultiDistance.median). -/
def MultiDistance.median (m : MultiDistance) : ℝ :=
  max (min m.r m.g) (min (max m.r m.g) m.b)

/-- Three channels plus the true-distance alpha (MultiAndTrueDistance.ts). -/
structure MultiAndTrueDistance where
  r : ℝ
  g : ℝ
  b : ℝ
  a : ℝ

/-! ## Edge colors (EdgeColor.ts): 3-bit channel masks over ℕ. -/

/-- EdgeColor.BLACK. -/
def BLACK : ℕ := 0

/-- EdgeColor.RED. -/
def RED : ℕ := 1

/-- EdgeColor.GREEN. -/
def GREEN : ℕ := 2

/-- EdgeColor.YELLOW. -/
def YELLOW : ℕ := 3

/-- EdgeColor.BLUE. -/
def BLUE : ℕ := 4

/-- EdgeColor.MAGENTA. -/
def MAGENTA : ℕ := 5

/-- EdgeColor.CYAN. -/
def CYAN : ℕ := 6

/-- EdgeColor.WHITE. -/
def WHITE : ℕ := 7

/-- Number of set channels of a color (EdgeColor.ts numChannels). -/
def numChannels (color : ℕ) : ℕ :=
  (if color &&& RED ≠ 0 then 1 else 0) + (if color &&& GREEN ≠ 0 then 1 else 0) +
    (if color &&& BLUE ≠ 0 then 1 else 0)

/-! ## Range and DistanceMapping (Range.ts, DistanceMapping.ts) -/

/-- A range of representable signed distances (Range.ts). -/
structure Range where
  lower : ℝ
  upper : ℝ

/-- Affine distance mapping (DistanceMapping.ts): private fields scale and
translate. -/
structure DistanceMapping where
  scale : ℝ
  translate : ℝ

/-- The DistanceMapping range constructor: maps [lower, upper] to [0, 1] with
`scale = 1 / (upper - lower)` and `translate = -lower`. -/
def DistanceMapping.ofRange (r : Range) : DistanceMapping :=
  ⟨1 / (r.upper - r.lower), -r.lower⟩

/-- The DistanceMapping default constructor: the identity mapping. -/
def DistanceMapping.identity : DistanceMapping := ⟨1, 0⟩

/-- DistanceMapping.map: `scale * (distance + translate)`. -/
def DistanceMapping.map (m : DistanceMapping) (distance : ℝ) : ℝ :=
  m.scale * (distance + m.translate)

/-- DistanceMapping.mapDelta: `scale * delta`. -/
def DistanceMapping.mapDelta (m : DistanceMapping) (delta : ℝ) : ℝ :=
  m.scale * delta

/-- DistanceMapping.getInverse: `(1 / scale, -scale * translate)`. -/
def DistanceMapping.getInverse (m : DistanceMapping) : DistanceMapping :=
  ⟨1 / m.scale, -m.scale * m.translate⟩

/-! ## Equation solvers (equation-solver.ts) -/

/-- Quadratic solver (equation-solver.ts solveQuadratic): linear fallback when
`a = 0` or `|b| > 1e12 * |a|`, then the discriminant cases. -/
def solveQuadratic (a b c : ℝ) : List ℝ :=
  if a = 0 ∨ |b| > 1e12 * |a| then
    if b = 0 then [] else [-c / b]
  else if b * b - 4 * a * c > 0 then
    [(-b + Real.sqrt (b * b - 4 * a * c)) / (2 * a),
     (-b - Real.sqrt (b * b - 4 * a * c)) / (2 * a)]
  else if b * b - 4 * a * c = 0 then [-b / (2 * a)]
  else []

/-- Normalized cubic solver (equation-solver.ts solveCubicNormed):
trigonometric form for three real roots, Cardano form otherwise. -/
def solveCubicNormed (a b c : ℝ) : List ℝ :=
  let a2 := a * a
  let q := (1 / 9) * (a2 - 3 * b)
  let r := (1 / 54) * (a * (2 * a2 - 9 * b) + 27 * c)
  let r2 := r * r
  let q3 := q * q * q
  let aThird := a * (1 / 3)
  if r2 < q3 then
    let t0 := r / Real.sqrt q3
    let t1 := if t0 < -1 then -1 else t0
    let t2 := if t1 > 1 then 1 else t1
    let t := Real.arccos t2
    let qMult := -2 * Real.sqrt q
    [qMult * Real.cos ((1 / 3) * t) - aThird,
     qMult * Real.cos ((1 / 3) * (t + 2 * Real.pi)) - aThird,
     qMult * Real.cos ((1 / 3) * (t - 2 * Real.pi)) - aThird]
  else
    let u := (if r < 0 then 1 else -1) * (|r| + Real.sqrt (r2 - q3)) ^ ((1 : ℝ) / 3)
    let v := if u = 0 then 0 else q / u
    let root1 := u + v - aThird
    if u = v ∨ |u - v| < 1e-12 * |u + v| then
      [root1, -0.5 * (u + v) - aThird]
    else
      [root1]

/-- Cubic solver (equation-solver.ts solveCubic): fall back to the quadratic
solver when `a = 0` or `|b / a| ≥ 1e6`. -/
def solveCubic (a b c d : ℝ) : List ℝ :=
  if a ≠ 0 ∧ |b / a| < 1e6 then solveCubicNormed (b / a) (c / a) (d / a)
  else solveQuadratic b c d

/-! ## The balanced trichotomy (edge-coloring.ts symmetricalTrichotomy),
stated over ℚ; its inputs are array indices and lengths. -/

/-- symmetricalTrichotomy: `floor(3 + 2.875 * position / (n - 1) - 1.4375 +
0.5) - 3`. -/
def symmetricalTrichotomy (position n : ℕ) : ℤ :=
  ⌊(3 : ℚ) + (2.875 : ℚ) * position / ((n : ℚ) - 1) - (1.4375 : ℚ) + (0.5 : ℚ)⌋ - 3

/-! ## Edge segments (EdgeSegment.ts, LinearSegment.ts, CubicSegment.ts):
a tagged variant over the three control-point shapes, each carrying a color
(a channel mask). -/

/-- An edge segment: linear, quadratic or cubic Bézier, with its color. -/
inductive EdgeSegment where
  | linear (p0 p1 : Vector2) (color : ℕ)
  | quadratic (p0 p1 p2 : Vector2) (color : ℕ)
  | cubic (p0 p1 p2 p3 : Vector2) (color : ℕ)

/-- The color carried by an edge segment. -/
def EdgeSegment.color : EdgeSegment → ℕ
  | .linear _ _ c => c
  | .quadratic _ _ _ c => c
  | .cubic _ _ _ _ c => c

/-- Replaces the color of an edge segment (the `edge.color = ...` writes of
the coloring pass). -/
def EdgeSegment.setColor : EdgeSegment → ℕ → EdgeSegment
  | .linear p0 p1 _, c => .linear p0 p1 c
  | .quadratic p0 p1 p2 _, c => .quadratic p0 p1 p2 c
  | .cubic p0 p1 p2 p3 _, c => .cubic p0 p1 p2 p3 c

/-- point(t): de Casteljau evaluation of the segment. -/
def EdgeSegment.point : EdgeSegment → ℝ → Vector2
  | .linear p0 p1 _, t => p0.mix p1 t
  | .quadratic p0 p1 p2 _, t => (p0.mix p1 t).mix (p1.mix p2 t) t
  | .cubic p0 p1 p2 p3 _, t =>
    let p12 := p1.mix p2 t
    ((p0.mix p1 t).mix p12 t).mix (p12.mix (p2.mix p3 t) t) t

/-- direction(t): the tangent, with the degenerate-endpoint fallbacks of the
source (`!tangent.x && !tangent.y` is tangent = 0). -/
def EdgeSegment.direction : EdgeSegment → ℝ → Vector2
  | .linear p0 p1 _, _ => p1.subtract p0
  | .quadratic p0 p1 p2 _, t =>
    let tangent := (p1.subtract p0).mix (p2.subtract p1) t
    if tangent.x = 0 ∧ tangent.y = 0 then p2.subtract p0 else tangent
  | .cubic p0 p1 p2 p3 _, t =>
    let tangent := ((p1.subtract p0).mix (p2.subtract p1) t).mix
      ((p2.subtract p1).mix (p3.subtract p2) t) t
    if tangent.x = 0 ∧ tangent.y = 0 then
      if t = 0 then p2.subtract p0
      else if t = 1 then p3.subtract p1
      else tangent
    else tangent

/-- reverse(): swaps the control points end to end (in place in the source; a
new segment here). -/
def EdgeSegment.reverse : EdgeSegment → EdgeSegment
  | .linear p0 p1 c => .linear p1 p0 c
  | .quadratic p0 p1 p2 c => .quadratic p2 p1 p0 c
  | .cubic p0 p1 p2 p3 c => .cubic p3 p2 p1 p0 c

/-- splitInThirds(): three segments splitting the curve at t = 1/3 and
t = 2/3 (LinearSegment / QuadraticSegment / CubicSegment.splitInThirds). -/
def EdgeSegment.splitInThirds : EdgeSegment → EdgeSegment × EdgeSegment × EdgeSegment
  | .linear p0' p1' c =>
    let s := EdgeSegment.linear p0' p1' c
    let p1 := s.point (1 / 3)
    let p2 := s.point (2 / 3)
    (.linear p0' p1 c, .linear p1 p2 c, .linear p2 p1' c)
  | .quadratic q0 q1 q2 c =>
    let s := EdgeSegment.quadratic q0 q1 q2 c
    let p1 := q0.mix q1 (1 / 3)
    let p2 := s.point (1 / 3)
    let p3 := (q0.mix q1 (5 / 9)).mix (q1.mix q2 (4 / 9)) (1 / 2)
    let p4 := s.point (2 / 3)
    let p5 := q1.mix q2 (2 / 3)
    (.quadratic q0 p1 p2 c, .quadratic p2 p3 p4 c, .quadratic p4 p5 q2 c)
  | .cubic q0 q1 q2 q3 c =>
    let t1 : ℝ := 1 / 3
    let p01 := q0.mix q1 t1
    let p12 := q1.mix q2 t1
    let p23 := q2.mix q3 t1
    let p012 := p01.mix p12 t1
    let p123 := p12.mix p23 t1
    let p0123 := p012.mix p123 t1
    let tA : ℝ := 0.5
    let r01 := p0123.mix p123 tA
    let r12 := p123.mix p23 tA
    let r23 := p23.mix q3 tA
    let r012 := r01.mix r12 tA
    let r123 := r12.mix r23 tA
    let r0123 := r012.mix r123 tA
    (.cubic q0 p01 p012 p0123 c, .cubic p0123 r01 r012 r0123 c,
      .cubic r0123 r123 r23 q3 c)

/-- A scanline crossing as the edge segments report it (EdgeSegment.ts
ScanlineIntersection): an x coordinate and the field named `dy`, the sign of
dy/dt at the crossing. -/
structure EdgeScanIntersection where
  x : ℝ
  dy : ℝ

/-- scanlineIntersections(y): the crossings of the segment with the
horizontal line at y (LinearSegment / QuadraticSegment /
CubicSegment.scanlineIntersections). -/
def EdgeSegment.scanlineIntersections : EdgeSegment → ℝ → List EdgeScanIntersection
  | .linear p0 p1 _, y =>
    if (y ≥ p0.y ∧ y < p1.y) ∨ (y ≥ p1.y ∧ y < p0.y) then
      let param := (y - p0.y) / (p1.y - p0.y)
      [⟨mix p0.x p1.x param, jsSign (p1.y - p0.y)⟩]
    else []
  | .quadratic p0 p1 p2 _, y =>
    let a := p0.y - 2 * p1.y + p2.y
    let b := 2 * (p1.y - p0.y)
    let c := p0.y - y
    (solveQuadratic a b c).filterMap fun t =>
      if t ≥ 0 ∧ t ≤ 1 then
        some ⟨mix (mix p0.x p1.x t) (mix p1.x p2.x t) t,
          jsSign (mix (p1.y - p0.y) (p2.y - p1.y) t)⟩
      else none
  | .cubic p0 p1 p2 p3 _, y =>
    let a := -p0.y + 3 * p1.y - 3 * p2.y + p3.y
    let b := 3 * p0.y - 6 * p1.y + 3 * p2.y
    let c := -3 * p0.y + 3 * p1.y
    let d := p0.y - y
    (solveCubic a b c d).filterMap fun t =>
      if t ≥ 0 ∧ t ≤ 1 then
        let p12 := p1.mix p2 t
        some ⟨mix (mix (mix p0.x p1.x t) p12.x t) (mix p12.x (mix p2.x p3.x t) t) t,
          jsSign (mix (mix (p1.y - p0.y) (p2.y - p1.y) t)
            (mix (p2.y - p1.y) (p3.y - p2.y) t) t)⟩
      else none

/-- Result of a signed-distance query (EdgeSegment.ts
SignedDistanceResult). -/
structure SignedDistanceResult where
  distance : SignedDistance
  param : ℝ

/-- LinearSegment.signedDistance. -/
def linearSignedDistance (p0 p1 origin : Vector2) : SignedDistanceResult :=
  let aq := origin.subtract p0
  let ab := p1.subtract p0
  let param := dotProduct aq ab / dotProduct ab ab
  let eq' := (if param > 0.5 then p1 else p0).subtract origin
  let endpointDistance := eq'.length
  if param > 0 ∧ param < 1 then
    let orthoDistance := dotProduct (ab.getOrthonormal false) aq
    if |orthoDistance| < endpointDistance then ⟨⟨orthoDistance, 0⟩, param⟩
    else ⟨⟨nonZeroSign (crossProduct aq ab) * endpointDistance,
      |dotProduct (ab.normalize) (eq'.normalize)|⟩, param⟩
  else
    ⟨⟨nonZeroSign (crossProduct aq ab) * endpointDistance,
      |dotProduct (ab.normalize) (eq'.normalize)|⟩, param⟩

/-- QuadraticSegment.signedDistance. -/
def quadraticSignedDistance (p0 p1 p2 origin : Vector2) (col : ℕ) :
    SignedDistanceResult :=
  let seg := EdgeSegment.quadratic p0 p1 p2 col
  let qa := p0.subtract origin
  let ab := p1.subtract p0
  let br := (p2.subtract p1).subtract ab
  let a := dotProduct br br
  let b := 3 * dotProduct ab br
  let c := 2 * dotProduct ab ab + dotProduct qa br
  let d := dotProduct qa ab
  let solutions := solveCubic a b c d
  let epDir0 := seg.direction 0
  let minDistance0 := nonZeroSign (crossProduct epDir0 qa) * qa.length
  let param0 := -(dotProduct qa epDir0) / dotProduct epDir0 epDir0
  let distB := (p2.subtract origin).length
  let state1 : ℝ × ℝ :=
    if distB < |minDistance0| then
      let epDir1 := seg.direction 1
      (nonZeroSign (crossProduct epDir1 (p2.subtract origin)) * distB,
        dotProduct (origin.subtract p1) epDir1 / dotProduct epDir1 epDir1)
    else (minDistance0, param0)
  let state2 : ℝ × ℝ := solutions.foldl (fun st t =>
    if t > 0 ∧ t < 1 then
      let qe := (qa.add (ab.scale (2 * t))).add (br.scale (t * t))
      let distance := qe.length
      if distance ≤ |st.1| then
        (nonZeroSign (crossProduct (ab.add (br.scale t)) qe) * distance, t)
      else st
    else st) state1
  let minDistance := state2.1
  let param := state2.2
  if param ≥ 0 ∧ param ≤ 1 then ⟨⟨minDistance, 0⟩, param⟩
  else if param < 0.5 then
    ⟨⟨minDistance, |dotProduct ((seg.direction 0).normalize) (qa.normalize)|⟩, param⟩
  else
    ⟨⟨minDistance,
      |dotProduct ((seg.direction 1).normalize) ((p2.subtract origin).normalize)|⟩,
      param⟩

/-- The do-while refinement loop of CubicSegment.signedDistance, entered with
the candidate `improvedT`; `fuel` is `remainingSteps` (CUBIC_SEARCH_STEPS).
Returns the final (t, qe, d1). -/
def cubicRefine (qa ab br asv : Vector2) : ℕ → ℝ → ℝ × Vector2 × Vector2
  | fuel, improvedT =>
    let t := improvedT
    let qe := ((qa.add (ab.scale (3 * t))).add (br.scale (3 * t * t))).add
      (asv.scale (t * t * t))
    let d1 := ((ab.scale 3).add (br.scale (6 * t))).add (asv.scale (3 * t * t))
    match fuel with
    | 0 => (t, qe, d1)
    | 1 => (t, qe, d1)
    | fuel + 1 =>
      let d2 := (br.scale 6).add (asv.scale (6 * t))
      let improvedT' := t - dotProduct qe d1 /
        (dotProduct d1 d1 + dotProduct qe d2)
      if improvedT' > 0 ∧ improvedT' < 1 then cubicRefine qa ab br asv fuel improvedT'
      else (t, qe, d1)

/-- CubicSegment.signedDistance: endpoint candidates plus Newton refinement
from CUBIC_SEARCH_STARTS uniformly spaced starting points. -/
def cubicSignedDistance (p0 p1 p2 p3 origin : Vector2) (col : ℕ) :
    SignedDistanceResult :=
  let seg := EdgeSegment.cubic p0 p1 p2 p3 col
  let qa := p0.subtract origin
  let ab := p1.subtract p0
  let br := (p2.subtract p1).subtract ab
  let asv := (((p3.subtract p2).subtract (p2.subtract p1))).subtract br
  let epDir0 := seg.direction 0
  let minDistance0 := nonZeroSign (crossProduct epDir0 qa) * qa.length
  let param0 := -(dotProduct qa epDir0) / dotProduct epDir0 epDir0
  let distB := (p3.subtract origin).length
  let state1 : ℝ × ℝ :=
    if distB < |minDistance0| then
      let epDir1 := seg.direction 1
      (nonZeroSign (crossProduct epDir1 (p3.subtract origin)) * distB,
        dotProduct ((epDir1.subtract (p3.subtract origin))) epDir1 /
          dotProduct epDir1 epDir1)
    else (minDistance0, param0)
  let state2 : ℝ × ℝ := (List.range 5).foldl (fun st i =>
    let t := (1 / 4 : ℝ) * i
    let qe := ((qa.add (ab.scale (3 * t))).add (br.scale (3 * t * t))).add
      (asv.scale (t * t * t))
    let d1 := ((ab.scale 3).add (br.scale (6 * t))).add (asv.scale (3 * t * t))
    let d2 := (br.scale 6).add (asv.scale (6 * t))
    let improvedT := t - dotProduct qe d1 / (dotProduct d1 d1 + dotProduct qe d2)
    if improvedT > 0 ∧ improvedT < 1 then
      let r := cubicRefine qa ab br asv 4 improvedT
      let distance := r.2.1.length
      if distance < |st.1| then
        (nonZeroSign (crossProduct r.2.2 r.2.1) * distance, r.1)
      else st
    else st) state1
  let minDistance := state2.1
  let param := state2.2
  if param ≥ 0 ∧ param ≤ 1 then ⟨⟨minDistance, 0⟩, param⟩
  else if param < 0.5 then
    ⟨⟨minDistance, |dotProduct ((seg.direction 0).normalize) (qa.normalize)|⟩, param⟩
  else
    ⟨⟨minDistance,
      |dotProduct ((seg.direction 1).normalize) ((p3.subtract origin).normalize)|⟩,
      param⟩

/-- signedDistance(origin), dispatching on the segment variant. -/
def EdgeSegment.signedDistance : EdgeSegment → Vector2 → SignedDistanceResult
  | .linear p0 p1 _, origin => linearSignedDistance p0 p1 origin
  | .quadratic p0 p1 p2 col, origin => quadraticSignedDistance p0 p1 p2 origin col
  | .cubic p0 p1 p2 p3 col, origin => cubicSignedDistance p0 p1 p2 p3 origin col

/-- distanceToPerpendicularDistance (EdgeSegment.ts base-class method):
replaces an endpoint distance with the signed distance to the endpoint
tangent line when that is smaller. -/
def EdgeSegment.distanceToPerpendicularDistance (e : EdgeSegment)
    (distance : SignedDistance) (origin : Vector2) (param : ℝ) : SignedDistance :=
  if param < 0.0001 ∨ param > 0.9999 then
    let dir := (if param < 0.5 then e.direction 0 else e.direction 1).normalize true
    let aq := origin.subtract (e.point param)
    let ts := dotProduct aq dir
    let pseudoDistance := crossProduct aq dir
    if |pseudoDistance| < |distance.distance| then ⟨pseudoDistance, ts⟩
    else distance
  else distance

/-! ## Shape model (Contour.ts, Shape.ts): edge holders are modelled as the
segments they hold (no contour built by the library leaves a holder empty,
and `getOrNull` is then never null). -/

/-- A contour: an ordered list of edge segments (Contour.ts). -/
structure Contour where
  edges : List EdgeSegment

/-- A shape: contours plus the Y-axis flag (Shape.ts). -/
structure Shape where
  contours : List Contour
  inverseYAxis : Bool

/-! ## Scanline (Scanline.ts).

The intersections a Scanline stores carry the crossing direction exactly as
the JavaScript value passed to `addIntersection`.  The only caller,
`OverlappingContourCombiner.updateScanline`, reads the property
`intersection.direction` from the objects the edge segments return — but
those objects (EdgeSegment.ts `ScanlineIntersection`) have the fields `x`
and `dy` and no property named `direction`, so that read evaluates to the
JavaScript value `undefined`, modelled by `none`.  Adding `undefined` to a
number yields `NaN`, also modelled by `none` (any arithmetic on `none` stays
`none`, as for NaN). -/

/-- An intersection as stored by Scanline.addIntersection: x plus the
direction argument as a JavaScript value (`none` = undefined). -/
structure StoredIntersection where
  x : ℝ
  direction : Option ℝ

/-- The scanline state: its intersection list (the `lastIndex` cursor only
serves `filledSequential`, which the combiners do not call). -/
structure Scanline where
  intersections : List StoredIntersection

/-- Scanline.addIntersection: ignores a direction strictly equal to 0
(`direction === 0`; `undefined === 0` is false) and appends otherwise. -/
def Scanline.addIntersection (s : Scanline) (x : ℝ) (direction : Option ℝ) :
    Scanline :=
  if direction = some 0 then s
  else ⟨s.intersections ++ [⟨x, direction⟩]⟩

/-- Stable insertion of an intersection after all stored ones with x not
greater: together with `Scanline.sortIntersections` this is the unique
stable ascending sort that Array.prototype.sort with comparator
`(a, b) => a.x - b.x` performs. -/
def insertByX (i : StoredIntersection) : List StoredIntersection →
    List StoredIntersection
  | [] => [i]
  | j :: rest => if i.x < j.x then i :: j :: rest else j :: insertByX i rest

/-- Scanline.sort: stable sort of the intersections by x ascending. -/
def Scanline.sortIntersections (s : Scanline) : Scanline :=
  ⟨s.intersections.foldl (fun acc i => insertByX i acc) []⟩

/-- JavaScript addition of possibly-undefined numbers: `x + undefined` is
NaN and NaN propagates, both modelled by `none`. -/
def jsAdd : Option ℝ → Option ℝ → Option ℝ
  | some a, some b => some (a + b)
  | _, _ => none

/-- Scanline.countWinding: sums the directions of the intersections strictly
left of x, stopping at the first one not left of x (the list is sorted). -/
def Scanline.countWinding (s : Scanline) (x : ℝ) : Option ℝ :=
  (s.intersections.takeWhile (fun i => i.x < x)).foldl
    (fun w i => jsAdd w i.direction) (some 0)

/-- Scanline.filled: `countWinding(x) !== 0`; true also when the winding is
NaN, since `NaN !== 0` holds in JavaScript. -/
def Scanline.filled (s : Scanline) (x : ℝ) : Prop := s.countWinding x ≠ some 0

/-- The property read `intersection.direction` in
OverlappingContourCombiner.updateScanline: the objects returned by
`edge.scanlineIntersections` have fields `x` and `dy` only, so the read
yields undefined. -/
def EdgeScanIntersection.directionRead (_ : EdgeScanIntersection) : Option ℝ :=
  none

/-- OverlappingContourCombiner.updateScanline: reset the scanline, add every
edge's intersections at height y (reading the nonexistent `direction`
property), and sort by x. -/
def updateScanline (y : ℝ) (contours : List Contour) : Scanline :=
  (contours.foldl (fun sc contour =>
    contour.edges.foldl (fun sc edge =>
      (edge.scanlineIntersections y).foldl (fun sc inter =>
        sc.addIntersection inter.x inter.directionRead) sc) sc)
    (⟨[]⟩ : Scanline)).sortIntersections

/-! ## Edge selectors (TrueDistanceSelector.ts,
PerpendicularDistanceSelector.ts, MultiDistanceSelector.ts,
MultiAndTrueDistanceSelector.ts).  The per-edge EdgeCache each selector
keeps never influences the returned distance, so it is not modelled. -/

/-- The runtime value a selector's distance() returns, tagged by its class:
a SignedDistance, a MultiDistance or a MultiAndTrueDistance instance. -/
inductive CombinedDist where
  | scalar (d : SignedDistance)
  | multi (m : MultiDistance)
  | multiTrue (m : MultiAndTrueDistance)

/-- The JavaScript membership test `'distance' in dist`: SignedDistance
instances have the own property `distance`; MultiDistance declares only r,
g, b and comparison methods, MultiAndTrueDistance adds only a, and neither
has a property named `distance` anywhere on its prototype chain. -/
def CombinedDist.hasDistanceProp : CombinedDist → Bool
  | .scalar _ => true
  | .multi _ => false
  | .multiTrue _ => false

/-- The value of `dist.distance` where that property exists (the other
branches are unreachable behind `hasDistanceProp`). -/
def CombinedDist.distanceProp : CombinedDist → ℝ
  | .scalar d => d.distance
  | .multi _ => 0
  | .multiTrue _ => 0

/-- The sign-correction block at the end of
OverlappingContourCombiner.distance: guarded by `'distance' in dist`; when
the fill test disagrees with the sign of `dist.distance`, flips r, g, b
(and a when present — the `'r' in dist`/`'a' in dist` dispatch) or the
scalar distance. -/
def resolveOverlappingSign (filled : Prop) (dist : CombinedDist) : CombinedDist :=
  if dist.hasDistanceProp then
    if (filled ↔ dist.distanceProp < 0) then dist
    else
      match dist with
      | .scalar d => .scalar ⟨-d.distance, d.dot⟩
      | .multi m => .multi ⟨-m.r, -m.g, -m.b⟩
      | .multiTrue m => .multiTrue ⟨-m.r, -m.g, -m.b, -m.a⟩
  else dist

/-- A selector implementation: reset state, addEdge, and distance() as the
tagged runtime value (the generic `Selector` parameter of the contour
combiners). -/
structure EdgeSelectorImpl (St : Type) where
  reset : St
  addEdge : St → SignedDistance → EdgeSegment → Vector2 → ℝ → St
  distance : St → CombinedDist

/-- TrueDistanceSelector: keeps the ordering-minimum signed distance,
starting from (-Number.MAX_VALUE, 0). -/
def trueDistanceSelector : EdgeSelectorImpl SignedDistance where
  reset := ⟨-MAX_VALUE, 0⟩
  addEdge := fun st distance _ _ _ =>
    if distance.lessThan st then distance else st
  distance := fun st => .scalar st

/-- PerpendicularDistanceSelector: converts each candidate with
distanceToPerpendicularDistance before comparing (`perpDistance ||
distance` always keeps perpDistance: a SignedDistance object is truthy). -/
def perpendicularDistanceSelector : EdgeSelectorImpl SignedDistance where
  reset := ⟨-MAX_VALUE, 0⟩
  addEdge := fun st distance edge origin param =>
    let perpDistance := edge.distanceToPerpendicularDistance distance origin param
    if perpDistance.lessThan st then perpDistance else st
  distance := fun st => .scalar st

/-- The three-channel selector state. -/
structure MultiSelectorState where
  r : SignedDistance
  g : SignedDistance
  b : SignedDistance

/-- MultiDistanceSelector: per-channel minima, each updated only when the
edge's color contains the channel. -/
def multiDistanceSelector : EdgeSelectorImpl MultiSelectorState where
  reset := ⟨⟨-MAX_VALUE, 0⟩, ⟨-MAX_VALUE, 0⟩, ⟨-MAX_VALUE, 0⟩⟩
  addEdge := fun st distance edge _ _ =>
    let st := if edge.color &&& RED ≠ 0 ∧ distance.lessThan st.r then
      { st with r := distance } else st
    let st := if edge.color &&& GREEN ≠ 0 ∧ distance.lessThan st.g then
      { st with g := distance } else st
    if edge.color &&& BLUE ≠ 0 ∧ distance.lessThan st.b then
      { st with b := distance } else st
  distance := fun st => .multi ⟨st.r.distance, st.g.distance, st.b.distance⟩

/-- The four-channel selector state. -/
structure MultiTrueSelectorState where
  r : SignedDistance
  g : SignedDistance
  b : SignedDistance
  a : SignedDistance

/-- MultiAndTrueDistanceSelector: the three color channels plus the true
distance alpha, updated on every edge. -/
def multiAndTrueDistanceSelector : EdgeSelectorImpl MultiTrueSelectorState where
  reset := ⟨⟨-MAX_VALUE, 0⟩, ⟨-MAX_VALUE, 0⟩, ⟨-MAX_VALUE, 0⟩, ⟨-MAX_VALUE, 0⟩⟩
  addEdge := fun st distance edge _ _ =>
    let st := if edge.color &&& RED ≠ 0 ∧ distance.lessThan st.r then
      { st with r := distance } else st
    let st := if edge.color &&& GREEN ≠ 0 ∧ distance.lessThan st.g then
      { st with g := distance } else st
    let st := if edge.color &&& BLUE ≠ 0 ∧ distance.lessThan st.b then
      { st with b := distance } else st
    if distance.lessThan st.a then { st with a := distance } else st
  distance := fun st =>
    .multiTrue ⟨st.r.distance, st.g.distance, st.b.distance, st.a.distance⟩

/-! ## Contour combiners (SimpleContourCombiner.ts,
OverlappingContourCombiner.ts), as single-query functions: a freshly
constructed combiner has `lastY = NaN`, so the first query always rebuilds
the scanline (`origin.y !== NaN` holds for every number). -/

/-- The shared edge traversal of both combiners: reset the selector, then
feed every edge of every contour with its signed distance to the origin. -/
def runSelector {St : Type} (sel : EdgeSelectorImpl St) (origin : Vector2)
    (contours : List Contour) : St :=
  contours.foldl (fun st contour =>
    contour.edges.foldl (fun st edge =>
      let result := edge.signedDistance origin
      sel.addEdge st result.distance edge origin result.param) st) sel.reset

/-- SimpleContourCombiner.distance: the selector's minimum over all edges,
with no fill correction. -/
def simpleCombinerDistance {St : Type} (sel : EdgeSelectorImpl St)
    (origin : Vector2) (contours : List Contour) : CombinedDist :=
  sel.distance (runSelector sel origin contours)

/-- OverlappingContourCombiner.distance on a fresh combiner: rebuild the
scanline at origin.y, run the selector over all edges, test the fill at
origin.x, and apply the sign-correction block. -/
def overlappingCombinerDistance {St : Type} (sel : EdgeSelectorImpl St)
    (origin : Vector2) (contours : List Contour) : CombinedDist :=
  let scanline := updateScanline origin.y contours
  let dist := sel.distance (runSelector sel origin contours)
  let filled := scanline.filled origin.x
  resolveOverlappingSign filled dist

end

/-! ## Contour winding and shape normalization (Contour.ts winding/reverse,
Shape.ts normalize) -/

noncomputable section

/-- Shoelace formula term (Contour.ts shoelace):
`(b.x - a.x) * (a.y + b.y)`. -/
def shoelace (a b : Vector2) : ℝ := (b.x - a.x) * (a.y + b.y)

/-- Sum of shoelace terms along a path: `chainSum p [q1, q2, ...]` is
shoelace p q1 + shoelace q1 q2 + ... (the running `prev`/`cur` fold of
Contour.winding). -/
def chainSum : Vector2 → List Vector2 → ℝ
  | _, [] => 0
  | p, q :: rest => shoelace p q + chainSum q rest

/-- Cyclic shoelace total of a vertex list: the fold of Contour.winding for
three or more edges, with `prev` initialized to the last vertex. -/
def cyclicShoelace (vs : List Vector2) : ℝ :=
  match vs.getLast? with
  | none => 0
  | some l => chainSum l vs

/-- The shoelace total Contour.winding computes before taking the sign:
midpoint samples for one or two edges, the start-point cycle for three or
more. -/
def Contour.windingTotal (c : Contour) : ℝ :=
  match c.edges with
  | [] => 0
  | [e] =>
    let a := e.point 0
    let b := e.point (1 / 3)
    let c' := e.point (2 / 3)
    shoelace a b + shoelace b c' + shoelace c' a
  | [e0, e1] =>
    let a := e0.point 0
    let b := e0.point 0.5
    let c' := e1.point 0
    let d := e1.point 0.5
    shoelace a b + shoelace b c' + shoelace c' d + shoelace d a
  | e0 :: e1 :: e2 :: rest =>
    cyclicShoelace ((e0 :: e1 :: e2 :: rest).map (fun e => e.point 0))

/-- Contour.winding: Math.sign of the shoelace total (0 for an empty
contour). -/
def Contour.winding (c : Contour) : ℝ := jsSign c.windingTotal

/-- Contour.reverse: reverses each edge in place, then reverses the edge
array. -/
def Contour.reverse (c : Contour) : Contour :=
  ⟨(c.edges.map EdgeSegment.reverse).reverse⟩

/-- Shape.normalize: reverses every contour whose winding is negative. -/
def Shape.normalize (s : Shape) : Shape :=
  ⟨s.contours.map (fun c => if c.winding < 0 then c.reverse else c),
    s.inverseYAxis⟩

/-- Closure of a contour (the data-model invariant the spec states for
contours, enforced by construction): each edge ends where the cyclically
next edge starts. -/
def Contour.Closed (c : Contour) : Prop :=
  ∀ i : Fin c.edges.length,
    (c.edges.get i).point 1 =
      (c.edges.get ⟨(i + 1) % c.edges.length, Nat.mod_lt _ i.pos⟩).point 0

/-- A concrete triangle shape (0,0) -> (1,0) -> (0,1) -> (0,0), traversed
clockwise in the y-up convention, so its winding is negative. -/
def triShape : Shape :=
  ⟨[⟨[EdgeSegment.linear ⟨0, 0⟩ ⟨1, 0⟩ WHITE,
      EdgeSegment.linear ⟨1, 0⟩ ⟨0, 1⟩ WHITE,
      EdgeSegment.linear ⟨0, 1⟩ ⟨0, 0⟩ WHITE]⟩], false⟩

end

/-! ## Generators (part_010: the distance-to-pixel converters,
generateDistanceField, generateSDF, generatePSDF, generateMSDF,
generateMTSDF; Projection from types/Projection,
SDFTransformation from generators/SDFTransformation.ts). The pixel buffer
(a Float32Array) is a total map from indices to values; the generators
index it only inside bounds. -/

noncomputable section

/-- Projection: pixel-space/shape-space transform with per-axis scale and
translate. -/
structure Projection where
  scale : Vector2
  translate : Vector2

/-- Projection.unproject: `coord.div(this.scale).sub(this.translate)`. -/
def Projection.unproject (pr : Projection) (coord : Vector2) : Vector2 :=
  (coord.div pr.scale).subtract pr.translate

/-- SDFTransformation: a Projection together with a DistanceMapping; its
unproject is inherited from Projection. -/
structure SDFTransformation extends Projection where
  distanceMapping : DistanceMapping

/-- The Float32Array store `pixels[i] = v`. -/
def writePixel (pixels : ℤ → ℝ) (i : ℤ) (v : ℝ) : ℤ → ℝ :=
  fun j => if j = i then v else pixels j

/-- The channel values the matching converter reads off the distance value
it is given: SingleChannelConverter reads `distance.distance`,
MultiChannelConverter reads r, g, b, MultiAndTrueChannelConverter reads r,
g, b, a. -/
def CombinedDist.channels : CombinedDist → List ℝ
  | .scalar d => [d.distance]
  | .multi m => [m.r, m.g, m.b]
  | .multiTrue m => [m.r, m.g, m.b, m.a]

/-- The converters' convert methods: distance-map each channel value and
store them at consecutive offsets starting at `offset`. -/
def writeChannels (dm : DistanceMapping) : (ℤ → ℝ) → ℤ → List ℝ → ℤ → ℝ
  | pixels, _, [] => pixels
  | pixels, offset, v :: rest =>
    writeChannels dm (writePixel pixels offset (dm.map v)) (offset + 1) rest

/-- One column step of generateDistanceField's inner loop: sample the pixel
center (x + 0.5, y + 0.5), unproject it, query the distance finder, convert
the distance into the buffer at offset (y*width + x)*channelCount, and
advance x by xDirection. -/
def genCol (tr : SDFTransformation) (contours : List Contour)
    (combiner : Vector2 → List Contour → CombinedDist)
    (width channelCount y : ℕ) (xDirection : ℤ)
    (st : (ℤ → ℝ) × ℤ) (_col : ℕ) : (ℤ → ℝ) × ℤ :=
  let pixels := st.1
  let x := st.2
  let p := tr.toProjection.unproject ⟨(x : ℝ) + 1 / 2, (y : ℝ) + 1 / 2⟩
  let dist := combiner p contours
  let offset := ((y : ℤ) * width + x) * channelCount
  (writeChannels tr.distanceMapping pixels offset dist.channels,
    x + xDirection)

/-- One row of generateDistanceField. The code compares the shape's numeric
YAxisOrientation enum value (1 or -1) with the string 'Y_UPWARD', which is
never equal, so yDirection is always 1, yStart is 0 and y = row. Within the
row, x starts at 0 or width-1 according to the serpentine direction, which
flips after every row. -/
def genRow (tr : SDFTransformation) (contours : List Contour)
    (combiner : Vector2 → List Contour → CombinedDist)
    (width channelCount : ℕ)
    (st : (ℤ → ℝ) × ℤ) (row : ℕ) : (ℤ → ℝ) × ℤ :=
  let xDirection := st.2
  let x0 : ℤ := if xDirection < 0 then (width : ℤ) - 1 else 0
  let inner := (List.range width).foldl
    (genCol tr contours combiner width channelCount row xDirection)
    (st.1, x0)
  (inner.1, -xDirection)

/-- generateDistanceField: serpentine scan over all rows, starting with
xDirection = 1. -/
def generateDistanceField (tr : SDFTransformation) (shape : Shape)
    (combiner : Vector2 → List Contour → CombinedDist)
    (width height channelCount : ℕ) (pixels0 : ℤ → ℝ) : ℤ → ℝ :=
  ((List.range height).foldl
    (genRow tr shape.contours combiner width channelCount) (pixels0, 1)).1

/-- generateSDF: true-distance selector, one channel; the combiner is
overlapping or simple according to config.overlapSupport (default true). -/
def generateSDF (overlapSupport : Bool) (tr : SDFTransformation)
    (shape : Shape) (width height : ℕ) (pixels0 : ℤ → ℝ) : ℤ → ℝ :=
  if overlapSupport then
    generateDistanceField tr shape
      (overlappingCombinerDistance trueDistanceSelector)
      width height 1 pixels0
  else
    generateDistanceField tr shape
      (simpleCombinerDistance trueDistanceSelector)
      width height 1 pixels0

/-- generatePSDF: perpendicular-distance selector, one channel. -/
def generatePSDF (overlapSupport : Bool) (tr : SDFTransformation)
    (shape : Shape) (width height : ℕ) (pixels0 : ℤ → ℝ) : ℤ → ℝ :=
  if overlapSupport then
    generateDistanceField tr shape
      (overlappingCombinerDistance perpendicularDistanceSelector)
      width height 1 pixels0
  else
    generateDistanceField tr shape
      (simpleCombinerDistance perpendicularDistanceSelector)
      width height 1 pixels0

/-- generateMSDF: multi-channel selector, three channels (error correction
is not implemented in the port). -/
def generateMSDF (overlapSupport : Bool) (tr : SDFTransformation)
    (shape : Shape) (width height : ℕ) (pixels0 : ℤ → ℝ) : ℤ → ℝ :=
  if overlapSupport then
    generateDistanceField tr shape
      (overlappingCombinerDistance multiDistanceSelector)
      width height 3 pixels0
  else
    generateDistanceField tr shape
      (simpleCombinerDistance multiDistanceSelector)
      width height 3 pixels0

/-- generateMTSDF: multi-and-true-distance selector, four channels. -/
def generateMTSDF (overlapSupport : Bool) (tr : SDFTransformation)
    (shape : Shape) (width height : ℕ) (pixels0 : ℤ → ℝ) : ℤ → ℝ :=
  if overlapSupport then
    generateDistanceField tr shape
      (overlappingCombinerDistance multiAndTrueDistanceSelector)
      width height 4 pixels0
  else
    generateDistanceField tr shape
      (simpleCombinerDistance multiAndTrueDistanceSelector)
      width height 4 pixels0

/-- A shape with no contours. -/
def emptyShape : Shape := ⟨[], false⟩

/-- seedExtract2: the low bit of the seed, advancing the seed one bit. -/
def seedExtract2 (seed : ℕ) : ℕ × ℕ := (seed &&& 1, seed >>> 1)

/-- seedExtract3: the seed modulo 3, advancing the seed by dividing by 3. -/
def seedExtract3 (seed : ℕ) : ℕ × ℕ := (seed % 3, seed / 3)

/-- initColor: one of CYAN, MAGENTA, YELLOW picked by a seed trit. -/
def initColor (seed : ℕ) : ℕ × ℕ :=
  let v := seedExtract3 seed
  ([CYAN, MAGENTA, YELLOW].getD v.1 BLACK, v.2)

/-- switchColor: when the banned overlap with the current color is a single
channel, the complementary two-channel color; otherwise a seeded barrel
shift of the current color's three channel bits (a call without `banned`
behaves like banned = BLACK, whose overlap is never a single channel). -/
def switchColor (seed currentColor banned : ℕ) : ℕ × ℕ :=
  let combined := currentColor &&& banned
  if combined = RED ∨ combined = GREEN ∨ combined = BLUE then
    (combined ^^^ WHITE, seed)
  else
    let v := seedExtract2 seed
    let shifted := currentColor <<< (1 + v.1)
    ((shifted ||| (shifted >>> 3)) &&& WHITE, v.2)

/-- The store `contour.edges[idx].get().color = c`: replace the color of
the edge at position idx, leaving the list unchanged when out of range. -/
def setEdgeColorAt : List EdgeSegment → ℕ → ℕ → List EdgeSegment
  | [], _, _ => []
  | e :: rest, 0, c => e.setColor c :: rest
  | e :: rest, n + 1, c => e :: setEdgeColorAt rest n c

/-- The store `parts[k]!.color = c` on the nullable parts array. -/
def setSlotColor (parts : List (Option EdgeSegment)) (k c : ℕ) :
    List (Option EdgeSegment) :=
  parts.set k ((parts.getD k none).map (fun e => e.setColor c))

/-- The three two-channel colors the edgeColoringSimple color state ranges
over. -/
def S3 (c : ℕ) : Prop := c = CYAN ∨ c = MAGENTA ∨ c = YELLOW

/-- The colors edgeColoringSimple may assign to an edge: the two-channel
colors and WHITE. -/
def GoodColor (c : ℕ) : Prop :=
  c = CYAN ∨ c = MAGENTA ∨ c = YELLOW ∨ c = WHITE

/-- A default edge, only used as the out-of-range value of list lookups in
statements about edge lists. -/
def dummyEdge : EdgeSegment := .linear ⟨0, 0⟩ ⟨0, 0⟩ BLACK

/-- The identity SDFTransformation: unit scale, zero translate, identity
distance mapping. -/
def idTransformation : SDFTransformation :=
  ⟨⟨⟨1, 1⟩, ⟨0, 0⟩⟩, DistanceMapping.identity⟩

/-- isCorner (edge-coloring.ts): two directions form a corner when their
dot product is nonpositive or the cross product magnitude exceeds the
threshold. -/
def isCorner (aDir bDir : Vector2) (crossThreshold : ℝ) : Prop :=
  dotProduct aDir bDir ≤ 0 ∨ |crossProduct aDir bDir| > crossThreshold

/-- The corner-identification loop shared by all three coloring
algorithms: prevDirection starts as the last edge's end direction, and
every edge whose start direction forms a corner with it contributes its
index. -/
def detectCorners (edges : List EdgeSegment) (crossThreshold : ℝ) :
    List ℕ :=
  match edges.getLast? with
  | none => []
  | some lastEdge =>
    (edges.foldl
      (fun (acc : List ℕ × Vector2 × ℕ) edge =>
        (if isCorner (acc.2.1.normalize true)
            ((edge.direction 0).normalize true) crossThreshold
          then acc.1 ++ [acc.2.2] else acc.1,
          edge.direction 1, acc.2.2 + 1))
      ([], lastEdge.direction 1, 0)).1

/-- The teardrop split branch of edgeColoringSimple for contours of fewer
than three edges: a seven-slot nullable parts array is filled with the
thirds of the first (and second) edge at corner-dependent offsets, the
slots receive the three colors, and the non-null parts become the new
edge list. -/
def teardropSplit (edges : List EdgeSegment) (corner c0 c1 c2 : ℕ) :
    List EdgeSegment :=
  match edges with
  | [] => []
  | e0 :: rest =>
    let parts : List (Option EdgeSegment) := List.replicate 7 none
    let p := e0.splitInThirds
    let parts := ((parts.set (0 + 3 * corner) (some p.1)).set
      (1 + 3 * corner) (some p.2.1)).set (2 + 3 * corner) (some p.2.2)
    match rest with
    | [] =>
      let parts :=
        setSlotColor (setSlotColor (setSlotColor parts 0 c0) 1 c1) 2 c2
      parts.filterMap id
    | e1 :: _ =>
      let q := e1.splitInThirds
      let parts := ((parts.set (3 - 3 * corner) (some q.1)).set
        (4 - 3 * corner) (some q.2.1)).set (5 - 3 * corner) (some q.2.2)
      let parts := setSlotColor (setSlotColor parts 0 c0) 1 c0
      let parts := setSlotColor (setSlotColor parts 2 c1) 3 c1
      let parts := setSlotColor (setSlotColor parts 4 c2) 5 c2
      parts.filterMap id

/-- One iteration of the teardrop color loop:
`contour.edges[(corner + i) % m].get().color = colors[1 +
symmetricalTrichotomy(i, m)]`. -/
def teardropStep (corner m : ℕ) (colors : List ℕ)
    (es : List EdgeSegment) (i : ℕ) : List EdgeSegment :=
  setEdgeColorAt es ((corner + i) % m)
    (colors.getD (1 + symmetricalTrichotomy i m).toNat BLACK)

/-- The single-corner ("teardrop") branch of edgeColoringSimple: colors
[switch, WHITE, switch] distributed by the symmetrical trichotomy from the
corner when the contour has at least three edges, the split fallback
otherwise; returns the new edges and the updated color and seed. -/
def teardropApply (corner : ℕ) (edges : List EdgeSegment)
    (color0 seed0 : ℕ) : List EdgeSegment × ℕ × ℕ :=
  let r1 := switchColor seed0 color0 BLACK
  let r2 := switchColor r1.2 r1.1 BLACK
  let colors : List ℕ := [r1.1, WHITE, r2.1]
  let m := edges.length
  if 3 ≤ m then
    ((List.range m).foldl (teardropStep corner m colors) edges, r2.1, r2.2)
  else
    (teardropSplit edges corner r1.1 WHITE r2.1, r2.1, r2.2)

/-- One iteration of the multiple-corner loop: on reaching the next corner
index, advance the spline counter and switch the color (banning the
initial color at the last spline), then write the current color. -/
def multiCornerStep (corners : List ℕ) (start initialColor m : ℕ)
    (st : List EdgeSegment × ℕ × ℕ × ℕ) (i : ℕ) :
    List EdgeSegment × ℕ × ℕ × ℕ :=
  let idx := (start + i) % m
  let next :=
    if st.2.1 + 1 < corners.length ∧ corners.getD (st.2.1 + 1) 0 = idx then
      let banned := if st.2.1 + 1 = corners.length - 1 then initialColor
        else BLACK
      let c := switchColor st.2.2.2 st.2.2.1 banned
      (st.2.1 + 1, c.1, c.2)
    else st.2
  (setEdgeColorAt st.1 idx next.2.1, next)

/-- The multiple-corner branch of edgeColoringSimple: walk the edges from
the first corner, switching color at every further corner (banning the
initial color at the last one) and writing the current color. -/
def multiCornerApply (corners : List ℕ) (edges : List EdgeSegment)
    (color0 seed0 : ℕ) : List EdgeSegment × ℕ × ℕ :=
  let r1 := switchColor seed0 color0 BLACK
  let r := (List.range edges.length).foldl
    (multiCornerStep corners (corners.getD 0 0) r1.1 edges.length)
    (edges, 0, r1.1, r1.2)
  (r.1, r.2.2.1, r.2.2.2)

/-- One contour of edgeColoringSimple: contours without edges are skipped,
otherwise the branch is picked by the number of detected corners. -/
def colorContourSimple (crossThreshold : ℝ) (c : Contour)
    (color seed : ℕ) : Contour × ℕ × ℕ :=
  if c.edges.length = 0 then (c, color, seed)
  else
    match detectCorners c.edges crossThreshold with
    | [] =>
      let r := switchColor seed color BLACK
      (⟨c.edges.map (fun e => e.setColor r.1)⟩, r.1, r.2)
    | [corner] =>
      let r := teardropApply corner c.edges color seed
      (⟨r.1⟩, r.2.1, r.2.2)
    | _ :: _ :: _ =>
      let r := multiCornerApply (detectCorners c.edges crossThreshold)
        c.edges color seed
      (⟨r.1⟩, r.2.1, r.2.2)

/-- One contour iteration of edgeColoringSimple's outer loop, appending
the recolored contour and threading the color and seed. -/
def colorShapeStep (crossThreshold : ℝ) (st : List Contour × ℕ × ℕ)
    (c : Contour) : List Contour × ℕ × ℕ :=
  let s := colorContourSimple crossThreshold c st.2.1 st.2.2
  (st.1 ++ [s.1], s.2.1, s.2.2)

/-- edgeColoringSimple: cross threshold sin(angleThreshold), initial color
from the seed, then every contour in order, threading the color and seed. -/
def edgeColoringSimple (shape : Shape) (angleThreshold : ℝ) (seed : ℕ) :
    Shape :=
  let c0 := initColor seed
  let r := shape.contours.foldl
    (colorShapeStep (Real.sin angleThreshold)) ([], c0.1, c0.2)
  ⟨r.1, shape.inverseYAxis⟩

/-- edgeToEdgeDistance (edge-coloring.ts): zero when the edges share an
endpoint, otherwise the minimum absolute signed distance over sampled
points of each edge against the other. -/
def edgeToEdgeDistance (a b : EdgeSegment) (precision : ℕ) : ℝ :=
  if (a.point 0).equals (b.point 0) ∨ (a.point 0).equals (b.point 1) ∨
      (a.point 1).equals (b.point 0) ∨ (a.point 1).equals (b.point 1) then 0
  else
    let iFac := 1 / (precision : ℝ)
    let md0 := ((b.point 0).subtract (a.point 0)).length
    let md1 := (List.range (precision + 1)).foldl (fun md i =>
      min md |(a.signedDistance (b.point (iFac * i))).distance.distance|)
      md0
    (List.range (precision + 1)).foldl (fun md i =>
      min md |(b.signedDistance (a.point (iFac * i))).distance.distance|)
      md1

/-- splineToSplineDistance: minimum edge-to-edge distance over the two
index ranges, starting from Number.MAX_VALUE; the inner loop stops once
the minimum reaches zero. -/
def splineToSplineDistance (edgeSegments : List EdgeSegment)
    (aStart aEnd bStart bEnd precision : ℕ) : ℝ :=
  (List.range' aStart (aEnd - aStart)).foldl (fun md ai =>
    (List.range' bStart (bEnd - bStart)).foldl (fun md2 bi =>
      if 0 < md2 then
        min md2 (edgeToEdgeDistance (edgeSegments.getD ai dummyEdge)
          (edgeSegments.getD bi dummyEdge) precision)
      else md2) md) MAX_VALUE

/-- colorSecondDegreeGraph: greedy 3-coloring of the spline graph. For
each vertex the colors of earlier neighbors are removed from the mask
0b111; the switch on the remaining mask picks a color, but has no case
for mask 0, in which case the vertex keeps the default `let color = 0`.
Returns the coloring and the advanced seed. A matrix entry is a JS
number tested for truthiness, so 0 means no edge. -/
def colorSecondDegreeGraph (edgeMatrix : List (List ℕ))
    (vertexCount : ℕ) (seed : ℕ) : List ℕ × ℕ :=
  (List.range vertexCount).foldl (fun (st : List ℕ × ℕ) i =>
    let possibleColors := (List.range i).foldl (fun pc j =>
      match (edgeMatrix.getD i []).getD j 0 with
      | 0 => pc
      | _ + 1 => pc &&& (4294967295 ^^^ (1 <<< st.1.getD j 0))) 7
    let cs : ℕ × ℕ :=
      match possibleColors with
      | 1 => (0, st.2)
      | 2 => (1, st.2)
      | 3 => ((seedExtract2 st.2).1, (seedExtract2 st.2).2)
      | 4 => (2, st.2)
      | 5 =>
        (match (seedExtract2 st.2).1 with
          | 0 => 0
          | _ + 1 => 2, (seedExtract2 st.2).2)
      | 6 => ((seedExtract2 st.2).1 + 1, (seedExtract2 st.2).2)
      | 7 => (((seedExtract3 st.2).1 + i) % 3, (seedExtract3 st.2).2)
      | _ => (0, st.2)
    (st.1.set i cs.1, cs.2))
    (List.replicate vertexCount 0, seed)

/-- The four-spike test contour C -> T0 -> C -> T1 -> C with C = (0,0),
T0 = (1,0), T1 = (0,1): four linear edges meeting at right or reflex
angles, so every vertex is a corner and every single-edge spline shares
the point C with every other. -/
def spikeE0 : EdgeSegment := .linear ⟨0, 0⟩ ⟨1, 0⟩ WHITE

/-- Second spike edge T0 -> C. -/
def spikeE1 : EdgeSegment := .linear ⟨1, 0⟩ ⟨0, 0⟩ WHITE

/-- Third spike edge C -> T1. -/
def spikeE2 : EdgeSegment := .linear ⟨0, 0⟩ ⟨0, 1⟩ WHITE

/-- Fourth spike edge T1 -> C. -/
def spikeE3 : EdgeSegment := .linear ⟨0, 1⟩ ⟨0, 0⟩ WHITE

/-- The spike contour's edge list. -/
def spikeEdges : List EdgeSegment := [spikeE0, spikeE1, spikeE2, spikeE3]

/-- The adjacency matrix edgeColoringByDistance builds for the spike
shape: all six spline pairs have distance zero, so the zero-distance loop
inserts every edge of K4 before the initial coloring. -/
def spikeK4 : List (List ℕ) :=
  [[0, 1, 1, 1], [1, 0, 1, 1], [1, 1, 0, 1], [1, 1, 1, 0]]

/-- A single horizontal edge, a smooth one-edge contour for concrete
coloring runs. -/
def horizEdge : EdgeSegment := .linear ⟨0, 0⟩ ⟨1, 0⟩ WHITE

/-- The one-contour shape holding only horizEdge. -/
def horizShape : Shape := ⟨[⟨[horizEdge]⟩], false⟩

end

/-! ## Theorems: polynomial solver (C5) -/

/-- C5 counterexample: with `a = 1/10^13, b = 1, c = 10^13` the discriminant
`b² - 4ac = -3` is negative, yet solveQuadratic takes the linear fallback
(`|b| > 1e12·|a|`) and returns one root, not the empty list the claim
requires for a negative discriminant. -/
theorem C5_solveQuadratic_counterexample :
    (1 : ℝ) * 1 - 4 * (1 / 10 ^ 13) * 10 ^ 13 < 0 ∧
      solveQuadratic (1 / 10 ^ 13) 1 (10 ^ 13) = [-(10 ^ 13 : ℝ) / 1] := by
  constructor
  · norm_num
  · have hf : (1 / 10 ^ 13 : ℝ) = 0 ∨ |(1 : ℝ)| > 1e12 * |(1 / 10 ^ 13 : ℝ)| := by
      right
      rw [abs_one, abs_of_pos (by norm_num : (0:ℝ) < 1 / 10 ^ 13)]
      norm_num
    rw [solveQuadratic, if_pos hf, if_neg (by norm_num : ¬(1 : ℝ) = 0)]

/-- C5 amended: the quadratic solver returns the empty list when the equation
is degenerate (a = 0 and b = 0), or when the discriminant is negative and the
linear fallback does not apply; exactly one root -c/b when the linear
fallback (a = 0 or |b| > 1e12·|a|) applies with b ≠ 0; one double root when
the fallback does not apply and the discriminant is zero; and exactly two
distinct roots when the fallback does not apply and the discriminant is
positive. -/
theorem C5_solveQuadratic_amended (a b c : ℝ) :
    ((a = 0 ∧ b = 0) → solveQuadratic a b c = []) ∧
    (¬(a = 0 ∨ |b| > 1e12 * |a|) → b * b - 4 * a * c < 0 →
      solveQuadratic a b c = []) ∧
    ((a = 0 ∨ |b| > 1e12 * |a|) → b ≠ 0 → solveQuadratic a b c = [-c / b]) ∧
    (¬(a = 0 ∨ |b| > 1e12 * |a|) → b * b - 4 * a * c = 0 →
      solveQuadratic a b c = [-b / (2 * a)]) ∧
    (¬(a = 0 ∨ |b| > 1e12 * |a|) → 0 < b * b - 4 * a * c →
      (solveQuadratic a b c).length = 2 ∧
        (-b + Real.sqrt (b * b - 4 * a * c)) / (2 * a) ≠
          (-b - Real.sqrt (b * b - 4 * a * c)) / (2 * a)) := by
  refine ⟨?_, ?_, ?_, ?_, ?_⟩
  · rintro ⟨ha, hb⟩
    rw [solveQuadratic, if_pos (Or.inl ha), if_pos hb]
  · intro hf hd
    rw [solveQuadratic, if_neg hf, if_neg (by linarith), if_neg (by linarith)]
  · intro hf hb
    rw [solveQuadratic, if_pos hf, if_neg hb]
  · intro hf hd
    rw [solveQuadratic, if_neg hf, if_neg (by linarith), if_pos hd]
  · intro hf hd
    have ha : a ≠ 0 := fun h => hf (Or.inl h)
    have hs : 0 < Real.sqrt (b * b - 4 * a * c) := Real.sqrt_pos.mpr hd
    constructor
    · rw [solveQuadratic, if_neg hf, if_pos hd]
      rfl
    · intro h
      field_simp at h
      linarith

/-- C5 witness: at `a = 1, b = 0, c = -1` the fallback does not apply, the
discriminant is 4 > 0, and the solver returns exactly two distinct roots. -/
theorem C5_solveQuadratic_amended_witness :
    (solveQuadratic 1 0 (-1)).length = 2 ∧
      (-(0:ℝ) + Real.sqrt (0 * 0 - 4 * 1 * (-1))) / (2 * 1) ≠
        (-0 - Real.sqrt (0 * 0 - 4 * 1 * (-1))) / (2 * 1) :=
  (C5_solveQuadratic_amended 1 0 (-1)).2.2.2.2 (by norm_num) (by norm_num)

/-! ## Theorems: the balanced trichotomy (C4) -/

/-- Closed form of the trichotomy: for i ≤ n the floor resolves to the two
threshold indicators 15n ≤ 46i and 31n ≤ 46i. -/
theorem trichotomy_closed_form (n i : ℕ) (hn : 1 ≤ n) (hi : i ≤ n) :
    symmetricalTrichotomy i (n + 1) =
      -1 + (if 15 * n ≤ 46 * i then 1 else 0) + (if 31 * n ≤ 46 * i then 1 else 0) := by
  have hn0 : (0 : ℚ) < n := by exact_mod_cast hn
  have hq : (3 : ℚ) + (2.875 : ℚ) * i / ((↑(n + 1) : ℚ) - 1) - (1.4375 : ℚ) + (0.5 : ℚ)
      = 33 / 16 + 23 * i / (8 * n) := by
    push_cast
    rw [show ((n : ℚ) + 1 - 1) = (n : ℚ) by ring]
    field_simp
    ring
  have hx0 : (0 : ℚ) ≤ 23 * i / (8 * n) := by positivity
  have hx1 : 23 * (i : ℚ) / (8 * n) ≤ 46 / 16 := by
    rw [div_le_div_iff (by positivity) (by norm_num)]
    have : (i : ℚ) ≤ n := by exact_mod_cast hi
    nlinarith
  have h15 : ((15 : ℚ) / 16 ≤ 23 * i / (8 * n)) ↔ 15 * n ≤ 46 * i := by
    rw [div_le_div_iff (by norm_num) (by positivity),
      show (15 : ℚ) * (8 * n) = ((120 * n : ℕ) : ℚ) by push_cast; ring,
      show 23 * (i : ℚ) * 16 = ((368 * i : ℕ) : ℚ) by push_cast; ring,
      Nat.cast_le]
    omega
  have h31 : ((31 : ℚ) / 16 ≤ 23 * i / (8 * n)) ↔ 31 * n ≤ 46 * i := by
    rw [div_le_div_iff (by norm_num) (by positivity),
      show (31 : ℚ) * (8 * n) = ((248 * n : ℕ) : ℚ) by push_cast; ring,
      show 23 * (i : ℚ) * 16 = ((368 * i : ℕ) : ℚ) by push_cast; ring,
      Nat.cast_le]
    omega
  unfold symmetricalTrichotomy
  rw [hq]
  by_cases hb : 31 * n ≤ 46 * i
  · have h15' : 15 * n ≤ 46 * i := by omega
    rw [if_pos hb, if_pos h15', show ⌊(33 / 16 + 23 * i / (8 * n) : ℚ)⌋ = 4 from ?_]
    · ring
    · rw [Int.floor_eq_iff]
      have := h31.mpr hb
      constructor
      · push_cast; linarith
      · push_cast; linarith
  · by_cases hs : 15 * n ≤ 46 * i
    · rw [if_neg hb, if_pos hs, show ⌊(33 / 16 + 23 * i / (8 * n) : ℚ)⌋ = 3 from ?_]
      · ring
      · rw [Int.floor_eq_iff]
        have h1 := h15.mpr hs
        have h2 : ¬ ((31 : ℚ) / 16 ≤ 23 * i / (8 * n)) := fun h => hb (h31.mp h)
        constructor
        · push_cast; linarith
        · push_cast; nlinarith [not_le.mp h2]
    · rw [if_neg hb, if_neg hs, show ⌊(33 / 16 + 23 * i / (8 * n) : ℚ)⌋ = 2 from ?_]
      · ring
      · rw [Int.floor_eq_iff]
        have h2 : ¬ ((15 : ℚ) / 16 ≤ 23 * i / (8 * n)) := fun h => hs (h15.mp h)
        constructor
        · push_cast; linarith
        · push_cast; nlinarith [not_le.mp h2]

/-- Counting helper: the members of range m at which `c ≤ 46 i`. -/
theorem card_filter_threshold (m c : ℕ) :
    ((Finset.range m).filter (fun i => c ≤ 46 * i)).card
      = m - min m ((c + 45) / 46) := by
  have h2 : (Finset.range m).filter (fun i => ¬ c ≤ 46 * i)
      = Finset.range (min m ((c + 45) / 46)) := by
    ext i
    simp only [Finset.mem_filter, Finset.mem_range, not_le, lt_min_iff]
    omega
  have h3 := Finset.filter_card_add_filter_neg_card_eq_card
    (s := Finset.range m) (p := fun i => c ≤ 46 * i)
  rw [h2, Finset.card_range, Finset.card_range] at h3
  omega

/-- C4 counterexample: at contour length m = 47, the sum of the trichotomy
over the 47 edge positions is 1, not 0: positions 0..14 give -1 while
positions 31..46 give +1 (the boundary ratios 15/46 and 31/46 both land
exactly on sample points, and only the upper one rounds in). -/
theorem C4_trichotomy_counterexample :
    (Finset.range 47).sum (fun i => symmetricalTrichotomy i 47) = 1 := by
  simp only [Finset.sum_range_succ, Finset.sum_range_zero, symmetricalTrichotomy]
  norm_num

/-- C4 amended: for every contour length m ≥ 2 and position i < m, the
trichotomy value lies in {-1, 0, +1}; the sum over positions 0..m-1 is 0
whenever 46 does not divide m - 1, and is 1 when 46 divides m - 1 (so the
claimed zero balance fails exactly at m = 47, 93, ...). -/
theorem C4_trichotomy_amended (m : ℕ) (hm : 2 ≤ m) :
    (∀ i < m, symmetricalTrichotomy i m = -1 ∨ symmetricalTrichotomy i m = 0 ∨
      symmetricalTrichotomy i m = 1) ∧
    (Finset.range m).sum (fun i => symmetricalTrichotomy i m)
      = (if 46 ∣ (m - 1) then 1 else 0) := by
  obtain ⟨n, rfl⟩ : ∃ n, m = n + 1 := ⟨m - 1, by omega⟩
  have hn : 1 ≤ n := by omega
  constructor
  · intro i hi
    rw [trichotomy_closed_form n i hn (by omega)]
    split_ifs <;> norm_num
  · rw [Finset.sum_congr rfl
      (fun i hi => trichotomy_closed_form n i hn (by
        have := Finset.mem_range.mp hi; omega))]
    have e1 : ∀ i ∈ Finset.range (n + 1),
        (-1 + (if 15 * n ≤ 46 * i then (1:ℤ) else 0) +
          (if 31 * n ≤ 46 * i then (1:ℤ) else 0))
        = (-1) + ((if 15 * n ≤ 46 * i then (1:ℤ) else 0) +
          (if 31 * n ≤ 46 * i then (1:ℤ) else 0)) := by
      intro i _; ring
    rw [Finset.sum_congr rfl e1, Finset.sum_add_distrib, Finset.sum_add_distrib,
      Finset.sum_const, Finset.card_range, Finset.sum_boole, Finset.sum_boole,
      card_filter_threshold, card_filter_threshold, nsmul_eq_mul]
    have hA : (15 * n + 45) / 46 ≤ n + 1 := by omega
    have hB : (31 * n + 45) / 46 ≤ n + 1 := by omega
    have hkey : (15 * n + 45) / 46 + (31 * n + 45) / 46
        = n + (if 46 ∣ n then 0 else 1) := by
      obtain ⟨q, r, hrlt, rfl⟩ : ∃ q r, r < 46 ∧ n = 46 * q + r :=
        ⟨n / 46, n % 46, Nat.mod_lt _ (by norm_num), by omega⟩
      have e15 : (15 * (46 * q + r) + 45) / 46 = 15 * q + (15 * r + 45) / 46 := by
        omega
      have e31 : (31 * (46 * q + r) + 45) / 46 = 31 * q + (31 * r + 45) / 46 := by
        omega
      rw [e15, e31]
      rcases Nat.eq_zero_or_pos r with hr0 | hrpos
      · subst hr0
        rw [if_pos (by omega : 46 ∣ 46 * q + 0)]
        omega
      · have hre := (by decide : ∀ r' : Fin 46, 1 ≤ (r' : ℕ) →
          (15 * (r' : ℕ) + 45) / 46 + (31 * (r' : ℕ) + 45) / 46 = (r' : ℕ) + 1)
        have := hre ⟨r, hrlt⟩ hrpos
        rw [if_neg (by omega : ¬ 46 ∣ 46 * q + r)]
        simp only [] at this
        omega
    rw [min_eq_right hA, min_eq_right hB, Nat.cast_sub hA, Nat.cast_sub hB]
    simp only [Nat.add_sub_cancel]
    split_ifs with hd
    · rw [if_pos hd] at hkey
      push_cast
      omega
    · rw [if_neg hd] at hkey
      push_cast
      omega

/-- C4 witness: at m = 3 the values are in {-1,0,1} and the sum is 0. -/
theorem C4_trichotomy_amended_witness :
    (∀ i < 3, symmetricalTrichotomy i 3 = -1 ∨ symmetricalTrichotomy i 3 = 0 ∨
      symmetricalTrichotomy i 3 = 1) ∧
    (Finset.range 3).sum (fun i => symmetricalTrichotomy i 3)
      = (if 46 ∣ (3 - 1) then 1 else 0) :=
  C4_trichotomy_amended 3 (by norm_num)

/-! ## Theorems: distance mapping (C7) -/

/-- C7: a DistanceMapping built from the range [lo, hi] with lo ≠ hi has
map(d) = (1/(hi-lo))·(d + (-lo)), and its getInverse undoes map exactly. -/
theorem C7_distanceMapping_inverse (lo hi x d : ℝ) (h : lo ≠ hi) :
    (DistanceMapping.ofRange ⟨lo, hi⟩).map d = (1 / (hi - lo)) * (d + (-lo)) ∧
    (DistanceMapping.ofRange ⟨lo, hi⟩).getInverse.map
      ((DistanceMapping.ofRange ⟨lo, hi⟩).map x) = x := by
  have hw : hi - lo ≠ 0 := sub_ne_zero.mpr (Ne.symm h)
  constructor
  · rfl
  · unfold DistanceMapping.ofRange DistanceMapping.getInverse DistanceMapping.map
    field_simp

/-- C7 witness: the range [0, 1] and x = 5. -/
theorem C7_distanceMapping_inverse_witness :
    (DistanceMapping.ofRange ⟨0, 1⟩).getInverse.map
      ((DistanceMapping.ofRange ⟨0, 1⟩).map 5) = 5 :=
  (C7_distanceMapping_inverse 0 1 5 0 (by norm_num)).2

/-! ## Theorems: linear scanline intersections (C9) -/

/-- C9: a linear segment reports at most one scanline crossing; exactly one
precisely when y lies in the orientation-dependent half-open vertical span;
a horizontal segment reports none, and the endpoint with the larger y never
produces a crossing. -/
theorem C9_linearScanlineIntersections (p0 p1 : Vector2) (col : ℕ) (y : ℝ) :
    ((EdgeSegment.linear p0 p1 col).scanlineIntersections y).length ≤ 1 ∧
    (((EdgeSegment.linear p0 p1 col).scanlineIntersections y).length = 1 ↔
      ((y ≥ p0.y ∧ y < p1.y) ∨ (y ≥ p1.y ∧ y < p0.y))) ∧
    (p0.y = p1.y → (EdgeSegment.linear p0 p1 col).scanlineIntersections y = []) ∧
    (p0.y < p1.y → (EdgeSegment.linear p0 p1 col).scanlineIntersections p1.y = []) ∧
    (p1.y < p0.y → (EdgeSegment.linear p0 p1 col).scanlineIntersections p0.y = []) := by
  refine ⟨?_, ?_, ?_, ?_, ?_⟩
  · rw [EdgeSegment.scanlineIntersections]
    split_ifs <;> simp
  · rw [EdgeSegment.scanlineIntersections]
    split_ifs with h <;> simp [h]
  · intro he
    rw [EdgeSegment.scanlineIntersections, if_neg]
    rintro (⟨h1, h2⟩ | ⟨h1, h2⟩) <;> linarith
  · intro hlt
    rw [EdgeSegment.scanlineIntersections, if_neg]
    rintro (⟨h1, h2⟩ | ⟨h1, h2⟩) <;> linarith
  · intro hlt
    rw [EdgeSegment.scanlineIntersections, if_neg]
    rintro (⟨h1, h2⟩ | ⟨h1, h2⟩) <;> linarith

/-! ## Theorems: the overlapping combiner's scanline direction read (C2) -/

/-- C2: for the vertical segment (0,0)→(0,2) and the scanline y = 1, the
edge reports the crossing {x = 0, dy = +1}, so the claim requires the
scanline to record direction +1 and yield winding 1 at x = 5; but
updateScanline reads the nonexistent `direction` property of the
intersection object, so the scanline records undefined and the winding
evaluates to NaN (modelled by `none`). -/
theorem C2_updateScanline_records_undefined :
    (EdgeSegment.linear ⟨0, 0⟩ ⟨0, 2⟩ WHITE).scanlineIntersections 1
        = [⟨0, 1⟩] ∧
    (updateScanline 1 [⟨[EdgeSegment.linear ⟨0, 0⟩ ⟨0, 2⟩ WHITE]⟩]).intersections
        = [⟨0, none⟩] ∧
    (updateScanline 1 [⟨[EdgeSegment.linear ⟨0, 0⟩ ⟨0, 2⟩ WHITE]⟩]).countWinding 5
        = none := by
  have hscan : (EdgeSegment.linear ⟨0, 0⟩ ⟨0, 2⟩ WHITE).scanlineIntersections 1
      = [⟨0, 1⟩] := by
    rw [EdgeSegment.scanlineIntersections,
      if_pos (by norm_num : ((1:ℝ) ≥ 0 ∧ (1:ℝ) < 2) ∨ ((1:ℝ) ≥ 2 ∧ (1:ℝ) < 0))]
    simp only [mix, jsSign]
    norm_num
  refine ⟨hscan, ?_, ?_⟩
  · rw [updateScanline]
    simp only [List.foldl, hscan, EdgeScanIntersection.directionRead]
    rw [Scanline.addIntersection, if_neg (by simp : ¬ (none : Option ℝ) = some 0)]
    rfl
  · rw [updateScanline]
    simp only [List.foldl, hscan, EdgeScanIntersection.directionRead]
    rw [Scanline.addIntersection, if_neg (by simp : ¬ (none : Option ℝ) = some 0)]
    rw [Scanline.sortIntersections]
    simp only [List.foldl, insertByX]
    rw [Scanline.countWinding]
    simp only [List.takeWhile]
    norm_num [jsAdd]

/-! ## Theorems: the overlapping combiner's multi-channel sign flip (C1) -/

/-- Evaluation of the linear signed distance used by the C1 run: from the
origin to the segment (5,0)→(10,0) the closest point is the endpoint (5,0)
at distance 5, the cross product is 0 so nonZeroSign gives -1, and the
clamped parameter is -1. -/
theorem c1_signedDistance_eval :
    (EdgeSegment.linear ⟨5, 0⟩ ⟨10, 0⟩ WHITE).signedDistance ⟨0, 0⟩
      = ⟨⟨-5, 1⟩, -1⟩ := by
  rw [EdgeSegment.signedDistance, linearSignedDistance]
  have hparam : dotProduct (Vector2.subtract ⟨0, 0⟩ ⟨5, 0⟩)
      (Vector2.subtract ⟨10, 0⟩ ⟨5, 0⟩) /
      dotProduct (Vector2.subtract ⟨10, 0⟩ ⟨5, 0⟩)
        (Vector2.subtract ⟨10, 0⟩ ⟨5, 0⟩) = -1 := by
    norm_num [dotProduct, Vector2.subtract]
  rw [hparam]
  rw [if_neg (by norm_num : ¬ ((-1 : ℝ) > 0.5))]
  rw [if_neg (by norm_num : ¬ ((-1 : ℝ) > 0 ∧ (-1 : ℝ) < 1))]
  have hlen : (Vector2.subtract ⟨5, 0⟩ ⟨0, 0⟩).length = 5 := by
    rw [Vector2.length]
    norm_num [Vector2.subtract]
    rw [show (25 : ℝ) = 5 ^ 2 by norm_num, Real.sqrt_sq (by norm_num : (0:ℝ) ≤ 5)]
  have hlen2 : (Vector2.subtract ⟨10, 0⟩ ⟨5, 0⟩).length = 5 := by
    rw [Vector2.length]
    norm_num [Vector2.subtract]
    rw [show (25 : ℝ) = 5 ^ 2 by norm_num, Real.sqrt_sq (by norm_num : (0:ℝ) ≤ 5)]
  have hcross : crossProduct (Vector2.subtract ⟨0, 0⟩ ⟨5, 0⟩)
      (Vector2.subtract ⟨10, 0⟩ ⟨5, 0⟩) = 0 := by
    norm_num [crossProduct, Vector2.subtract]
  rw [hcross, hlen]
  rw [Vector2.normalize, Vector2.normalize, hlen, hlen2]
  rw [if_pos (by norm_num : (5 : ℝ) ≠ 0), if_pos (by norm_num : (5 : ℝ) ≠ 0)]
  norm_num [nonZeroSign, dotProduct, Vector2.subtract]

/-- C1: for the shape with the single WHITE edge (5,0)→(10,0) queried at
the origin with the multi-channel selector, the fill test is false and all
channel distances are -5 (median < 0), so the claim requires the output
(5,5,5); but the guard `'distance' in dist` is false for a MultiDistance,
so the combiner returns (-5,-5,-5) with no channel flipped. -/
theorem C1_multiChannel_flip_skipped :
    ¬ (updateScanline 0 [⟨[EdgeSegment.linear ⟨5, 0⟩ ⟨10, 0⟩ WHITE]⟩]).filled 0 ∧
    MultiDistance.median ⟨-5, -5, -5⟩ < 0 ∧
    overlappingCombinerDistance multiDistanceSelector ⟨0, 0⟩
      [⟨[EdgeSegment.linear ⟨5, 0⟩ ⟨10, 0⟩ WHITE]⟩] = .multi ⟨-5, -5, -5⟩ := by
  have hscan : (EdgeSegment.linear ⟨5, 0⟩ ⟨10, 0⟩ WHITE).scanlineIntersections 0
      = [] := by
    rw [EdgeSegment.scanlineIntersections, if_neg]
    rintro (⟨h1, h2⟩ | ⟨h1, h2⟩) <;> norm_num at h1 h2
  have hupd : updateScanline 0 [⟨[EdgeSegment.linear ⟨5, 0⟩ ⟨10, 0⟩ WHITE]⟩]
      = ⟨[]⟩ := by
    rw [updateScanline]
    simp only [List.foldl, hscan]
    rfl
  have hfill : ¬ (updateScanline 0 [⟨[EdgeSegment.linear ⟨5, 0⟩ ⟨10, 0⟩ WHITE]⟩]).filled 0 := by
    rw [hupd]
    simp [Scanline.filled, Scanline.countWinding]
  refine ⟨hfill, by norm_num [MultiDistance.median], ?_⟩
  have hlt : SignedDistance.lessThan ⟨-5, 1⟩ ⟨-MAX_VALUE, 0⟩ := by
    left
    rw [abs_of_nonpos (by norm_num : (-5:ℝ) ≤ 0),
      abs_of_nonpos (by unfold MAX_VALUE; norm_num : -MAX_VALUE ≤ 0)]
    unfold MAX_VALUE
    norm_num
  have hR : WHITE &&& RED ≠ 0 := by decide
  have hG : WHITE &&& GREEN ≠ 0 := by decide
  have hB : WHITE &&& BLUE ≠ 0 := by decide
  have hrun : runSelector multiDistanceSelector ⟨0, 0⟩
      [⟨[EdgeSegment.linear ⟨5, 0⟩ ⟨10, 0⟩ WHITE]⟩]
      = ⟨⟨-5, 1⟩, ⟨-5, 1⟩, ⟨-5, 1⟩⟩ := by
    rw [runSelector]
    simp only [List.foldl, c1_signedDistance_eval]
    simp [multiDistanceSelector, EdgeSegment.color, WHITE, RED, GREEN, BLUE, hlt]
  rw [overlappingCombinerDistance]
  simp only [hrun, hupd]
  simp [multiDistanceSelector, resolveOverlappingSign, CombinedDist.hasDistanceProp]

/-! ## Theorems: shape normalization (C6) -/

/-- Reversing swaps the shoelace term's sign. -/
theorem shoelace_swap (a b : Vector2) : shoelace b a = -shoelace a b := by
  unfold shoelace; ring

/-- Appending one vertex to a chain adds one shoelace term from the old last
vertex. -/
theorem chainSum_snoc (xs : List Vector2) (p z : Vector2) :
    chainSum p (xs ++ [z]) = chainSum p xs + shoelace (xs.getLastD p) z := by
  induction xs generalizing p with
  | nil => simp [chainSum]
  | cons q rest ih =>
    simp only [List.cons_append, chainSum, List.append_eq, List.getLastD_cons]
    rw [ih q]
    ring

/-- Traversing a closed-up chain backwards negates its shoelace sum. -/
theorem chainSum_reverse_aux (xs : List Vector2) (p q : Vector2) :
    chainSum q (xs.reverse ++ [p]) = -chainSum p (xs ++ [q]) := by
  induction xs generalizing p q with
  | nil =>
    simp only [List.reverse_nil, List.nil_append, chainSum]
    rw [shoelace_swap]
    ring
  | cons x rest ih =>
    have h1 : (x :: rest).reverse ++ [p] = (rest.reverse ++ [x]) ++ [p] := by
      simp
    rw [h1, chainSum_snoc, ih x q]
    have h2 : (rest.reverse ++ [x]).getLastD q = x := List.getLastD_concat _ _ _
    rw [h2]
    simp only [List.cons_append, chainSum, List.append_eq]
    rw [shoelace_swap]
    ring

/-- Reversing a vertex cycle negates its cyclic shoelace total. -/
theorem cyclicShoelace_reverse (vs : List Vector2) :
    cyclicShoelace vs.reverse = -cyclicShoelace vs := by
  cases vs with
  | nil => simp [cyclicShoelace]
  | cons v rest =>
    have h1 : (v :: rest).reverse = rest.reverse ++ [v] := by simp
    have h2 : (rest.reverse ++ [v]).getLast? = some v := by
      simp [List.getLast?_append]
    have h3 : (v :: rest).getLast? = some (rest.getLastD v) := by
      cases rest with
      | nil => simp [List.getLastD]
      | cons w ws =>
        simp [List.getLast?_cons_cons, List.getLastD_eq_getLast?]
        cases h : (w :: ws).getLast? with
        | none => simp [List.getLast?] at h
        | some z => simp
    unfold cyclicShoelace
    rw [h1, h2, h3]
    simp only []
    rw [chainSum_reverse_aux rest v v, chainSum_snoc]
    simp only [chainSum]
    rw [shoelace_swap]
    ring

/-- Rotating a vertex cycle by one preserves its cyclic shoelace total. -/
theorem cyclicShoelace_rotate (v : Vector2) (rest : List Vector2) :
    cyclicShoelace (rest ++ [v]) = cyclicShoelace (v :: rest) := by
  have h2 : (rest ++ [v]).getLast? = some v := by
    simp [List.getLast?_append]
  have h3 : (v :: rest).getLast? = some (rest.getLastD v) := by
    cases rest with
    | nil => simp [List.getLastD]
    | cons w ws =>
      simp [List.getLast?_cons_cons, List.getLastD_eq_getLast?]
      cases h : (w :: ws).getLast? with
      | none => simp [List.getLast?] at h
      | some z => simp
  unfold cyclicShoelace
  rw [h2, h3]
  simp only []
  rw [chainSum_snoc]
  simp only [chainSum]
  ring

/-- Reversing a segment mirrors its parametrization: point(t) of the
reverse is point(1-t) of the original, for all three variants. -/
theorem reverse_point (e : EdgeSegment) (t : ℝ) :
    e.reverse.point t = e.point (1 - t) := by
  cases e <;>
    simp only [EdgeSegment.reverse, EdgeSegment.point, Vector2.mix] <;>
    exact congrArg₂ Vector2.mk (by ring) (by ring)

/-- For a closed contour, the end points of the edges are the start points
rotated by one position. -/
theorem map_point_one_closed (e : EdgeSegment) (rest : List EdgeSegment)
    (hc : Contour.Closed ⟨e :: rest⟩) :
    (e :: rest).map (fun s => s.point 1)
      = rest.map (fun s => s.point 0) ++ [e.point 0] := by
  apply List.ext_get
  · simp
  · intro i h1 h2
    simp only [List.get_eq_getElem, List.getElem_map]
    by_cases hi : i < rest.length
    · have hlt : i < (rest.map (fun s => s.point 0)).length := by simpa using hi
      rw [List.getElem_append_left hlt]
      have hkey := hc ⟨i, by simpa using h1⟩
      simp only [List.get_eq_getElem] at hkey
      rw [hkey]
      have hmod : (i + 1) % (e :: rest).length = i + 1 :=
        Nat.mod_eq_of_lt (by simp only [List.length_cons]; omega)
      simp only [hmod, List.getElem_cons_succ, List.getElem_map]
    · have hieq : i = rest.length := by
        simp only [List.length_map, List.length_cons] at h1
        omega
      subst hieq
      rw [List.getElem_append_right (by simp)]
      have hkey := hc ⟨rest.length, by simp⟩
      simp only [List.get_eq_getElem] at hkey
      rw [hkey]
      have hmod : (rest.length + 1) % (e :: rest).length = 0 := by
        simp only [List.length_cons]
        exact Nat.mod_self _
      simp only [hmod, List.getElem_cons_zero]
      simp

/-- Reversing a closed contour negates its shoelace total. -/
theorem windingTotal_reverse (c : Contour) (hc : c.Closed) :
    c.reverse.windingTotal = -c.windingTotal := by
  obtain ⟨es⟩ := c
  match es with
  | [] =>
    simp [Contour.reverse, Contour.windingTotal]
  | [e] =>
    have h1 := hc ⟨0, by simp⟩
    simp only [List.length_cons, List.length_nil, List.get_eq_getElem] at h1
    norm_num at h1
    simp only [Contour.reverse, List.map_cons, List.map_nil, List.reverse_cons,
      List.reverse_nil, List.nil_append, Contour.windingTotal,
      reverse_point]
    rw [show (1:ℝ) - 0 = 1 by ring, show (1:ℝ) - 1/3 = 2/3 by ring,
      show (1:ℝ) - 2/3 = 1/3 by ring, h1]
    unfold shoelace
    ring
  | [e0, e1] =>
    have h1 := hc ⟨0, by simp⟩
    have h2 := hc ⟨1, by simp⟩
    simp only [List.length_cons, List.length_nil, List.get_eq_getElem] at h1 h2
    norm_num at h1 h2
    simp only [Contour.reverse, List.map_cons, List.map_nil, List.reverse_cons,
      List.reverse_nil, List.nil_append, List.cons_append, Contour.windingTotal,
      reverse_point]
    rw [show (1:ℝ) - 0 = 1 by ring, show (1:ℝ) - 0.5 = 0.5 by norm_num, h1, h2]
    unfold shoelace
    ring
  | e0 :: e1 :: e2 :: rest =>
    have h3 : 3 ≤ (e0 :: e1 :: e2 :: rest).length := by
      simp only [List.length_cons]
      omega
    have hrevlist : (Contour.reverse ⟨e0 :: e1 :: e2 :: rest⟩).edges
        = ((e0 :: e1 :: e2 :: rest).map EdgeSegment.reverse).reverse := rfl
    have hlen : 3 ≤ ((e0 :: e1 :: e2 :: rest).map EdgeSegment.reverse).reverse.length := by
      simpa using h3
    have harm : ∀ (d : Contour), 3 ≤ d.edges.length →
        d.windingTotal = cyclicShoelace (d.edges.map (fun e => e.point 0)) := by
      intro d hd
      obtain ⟨ds⟩ := d
      match ds, hd with
      | d0 :: d1 :: d2 :: drest, _ => rfl
    rw [harm _ (by simpa [Contour.reverse] using hlen),
      harm ⟨e0 :: e1 :: e2 :: rest⟩ h3]
    simp only [Contour.reverse]
    rw [List.map_reverse, List.map_map]
    have hcomp : (fun e : EdgeSegment => e.point 0) ∘ EdgeSegment.reverse
        = fun e : EdgeSegment => e.point 1 := by
      funext e
      simp [reverse_point]
    rw [hcomp, cyclicShoelace_reverse, map_point_one_closed e0 (e1 :: e2 :: rest) hc,
      cyclicShoelace_rotate]
    simp

/-- Signs: jsSign of a negation. -/
theorem jsSign_neg (x : ℝ) : jsSign (-x) = -jsSign x := by
  unfold jsSign
  rcases lt_trichotomy x 0 with h | h | h
  · rw [if_pos (by linarith : (0:ℝ) < -x), if_neg (by linarith : ¬ (0:ℝ) < x),
      if_pos h]
    norm_num
  · subst h; norm_num
  · rw [if_neg (by linarith : ¬ (0:ℝ) < -x), if_pos (by linarith : -x < 0),
      if_pos h]

/-- jsSign is negative exactly on the negatives, and then equals -1. -/
theorem jsSign_lt_zero (x : ℝ) (h : jsSign x < 0) : x < 0 ∧ jsSign x = -1 := by
  unfold jsSign at h ⊢
  rcases lt_trichotomy x 0 with h' | h' | h'
  · rw [if_neg (by linarith), if_pos h']
    exact ⟨h', rfl⟩
  · subst h'; norm_num at h
  · rw [if_pos h'] at h; norm_num at h

/-- C6: on a shape all of whose contours are closed, normalize is
idempotent, and after normalize every contour has winding ≥ 0 (a contour
with negative winding is reversed, which negates its winding sign). -/
theorem C6_normalize_idempotent (s : Shape) (hc : ∀ c ∈ s.contours, c.Closed) :
    s.normalize.normalize = s.normalize ∧
    ∀ c ∈ s.normalize.contours, 0 ≤ c.winding := by
  have key : ∀ c ∈ s.contours,
      (if (if c.winding < 0 then c.reverse else c).winding < 0 then
        (if c.winding < 0 then c.reverse else c).reverse
      else (if c.winding < 0 then c.reverse else c))
        = (if c.winding < 0 then c.reverse else c) ∧
      0 ≤ (if c.winding < 0 then c.reverse else c).winding := by
    intro c hmem
    by_cases hw : c.winding < 0
    · have hw' : jsSign c.windingTotal < 0 := hw
      have hx := (jsSign_lt_zero _ hw').1
      have hrev : c.reverse.winding = 1 := by
        unfold Contour.winding
        rw [windingTotal_reverse c (hc c hmem)]
        unfold jsSign
        rw [if_pos (by linarith : (0:ℝ) < -c.windingTotal)]
      rw [if_pos hw, if_neg (by rw [hrev]; norm_num), hrev]
      exact ⟨rfl, by norm_num⟩
    · rw [if_neg hw, if_neg hw]
      exact ⟨rfl, le_of_not_lt hw⟩
  constructor
  · unfold Shape.normalize
    simp only [List.map_map, Shape.mk.injEq, Function.comp]
    refine ⟨List.map_congr_left (fun c hmem => (key c hmem).1), trivial⟩
  · intro c' hmem'
    unfold Shape.normalize at hmem'
    simp only [List.mem_map] at hmem'
    obtain ⟨c, hmem, rfl⟩ := hmem'
    exact (key c hmem).2


/-- Witness for C6: the clockwise triangle shape is closed, and applying
the theorem to it gives normalize-idempotence and nonnegative windings. -/
theorem C6_normalize_idempotent_witness :
    (∀ c ∈ triShape.contours, c.Closed) ∧
    (triShape.normalize.normalize = triShape.normalize ∧
      ∀ c ∈ triShape.normalize.contours, 0 ≤ c.winding) := by
  have hclosed : ∀ c ∈ triShape.contours, c.Closed := by
    intro c hmem
    simp only [triShape, List.mem_singleton] at hmem
    subst hmem
    intro i
    fin_cases i <;>
      simp [EdgeSegment.point, Vector2.mix, mix]
  exact ⟨hclosed, C6_normalize_idempotent triShape hclosed⟩

/-! ## Theorems: generators on an empty shape (C8) -/

/-- Number.MAX_VALUE is positive. -/
theorem MAX_VALUE_pos : (0 : ℝ) < MAX_VALUE := by norm_num [MAX_VALUE]

/-- Writing a block of channel values that all distance-map to the same
value m sets exactly the index interval [offset, offset + length). -/
theorem writeChannels_const (dm : DistanceMapping) (m : ℝ) :
    ∀ (vals : List ℝ) (pixels : ℤ → ℝ) (offset : ℤ),
      (∀ u ∈ vals, dm.map u = m) →
      ∀ j, writeChannels dm pixels offset vals j =
        if offset ≤ j ∧ j < offset + vals.length then m else pixels j := by
  intro vals
  induction vals with
  | nil =>
    intro pixels offset hall j
    rw [writeChannels,
      if_neg (by simp only [List.length_nil, Nat.cast_zero, add_zero]; omega)]
  | cons v rest ih =>
    intro pixels offset hall j
    rw [writeChannels, ih _ _ (fun u hu => hall u (List.mem_cons_of_mem v hu))]
    by_cases h : offset + 1 ≤ j ∧ j < offset + 1 + rest.length
    · rw [if_pos h, if_pos (by simp only [List.length_cons]; push_cast; omega)]
    · rw [if_neg h]
      unfold writePixel
      by_cases hj : j = offset
      · subst hj
        rw [if_pos rfl, if_pos (by simp only [List.length_cons]; push_cast; omega)]
        exact hall v (List.mem_cons_self v rest)
      · rw [if_neg hj,
          if_neg (by simp only [List.length_cons] at *; push_cast at *; omega)]

/-- The inner column loop in the ascending direction (xDirection = 1):
starting at x0 and running n columns writes the blocks of columns
x0 .. x0+n-1 of row y with the constant mapped value, and ends at
x = x0 + n. -/
theorem genCol_fold_asc (tr : SDFTransformation) (contours : List Contour)
    (combiner : Vector2 → List Contour → CombinedDist)
    (w cc y : ℕ) (D : CombinedDist) (m : ℝ)
    (hD : ∀ p, combiner p contours = D)
    (hlen : D.channels.length = cc)
    (hm : ∀ u ∈ D.channels, tr.distanceMapping.map u = m) :
    ∀ (n : ℕ) (pixels : ℤ → ℝ) (x0 : ℤ),
      ((List.range n).foldl (genCol tr contours combiner w cc y 1)
        (pixels, x0)).2 = x0 + n ∧
      ∀ j, ((List.range n).foldl (genCol tr contours combiner w cc y 1)
          (pixels, x0)).1 j =
        if ((y : ℤ) * w + x0) * cc ≤ j ∧ j < ((y : ℤ) * w + x0 + n) * cc
        then m else pixels j := by
  intro n
  induction n with
  | zero =>
    intro pixels x0
    refine ⟨by simp, fun j => ?_⟩
    simp only [List.range_zero, List.foldl_nil, Nat.cast_zero, add_zero]
    exact (if_neg (fun hh => absurd (lt_of_le_of_lt hh.1 hh.2) (lt_irrefl _))).symm
  | succ n ih =>
    intro pixels x0
    rw [List.range_succ, List.foldl_append, List.foldl_cons, List.foldl_nil]
    obtain ⟨hsnd, hfst⟩ := ih pixels x0
    simp only [genCol]
    rw [hD, hsnd]
    constructor
    · push_cast; ring
    · intro j
      rw [writeChannels_const tr.distanceMapping m D.channels _ _ hm j, hlen,
        hfst j]
      have e1 : ((y : ℤ) * w + x0 + ((n : ℕ) + 1 : ℕ)) * cc
          = ((y : ℤ) * w + x0 + n) * cc + cc := by push_cast; ring
      have e2 : ((y : ℤ) * w + x0 + n) * cc - ((y : ℤ) * w + x0) * cc
          = (n : ℤ) * cc := by ring
      have e3 : (0 : ℤ) ≤ (n : ℤ) * cc := by positivity
      have e4 : ((y : ℤ) * w + (x0 + n)) * cc
          = ((y : ℤ) * w + x0 + n) * cc := by ring
      rw [e4]
      split_ifs with h1 h2 h3 <;> first | rfl | (exfalso; omega)

/-- The inner column loop in the descending direction (xDirection = -1):
starting at x0 and running n columns writes the blocks of columns
x0-n+1 .. x0 of row y with the constant mapped value, and ends at
x = x0 - n. -/
theorem genCol_fold_desc (tr : SDFTransformation) (contours : List Contour)
    (combiner : Vector2 → List Contour → CombinedDist)
    (w cc y : ℕ) (D : CombinedDist) (m : ℝ)
    (hD : ∀ p, combiner p contours = D)
    (hlen : D.channels.length = cc)
    (hm : ∀ u ∈ D.channels, tr.distanceMapping.map u = m) :
    ∀ (n : ℕ) (pixels : ℤ → ℝ) (x0 : ℤ),
      ((List.range n).foldl (genCol tr contours combiner w cc y (-1))
        (pixels, x0)).2 = x0 - n ∧
      ∀ j, ((List.range n).foldl (genCol tr contours combiner w cc y (-1))
          (pixels, x0)).1 j =
        if ((y : ℤ) * w + x0 - n + 1) * cc ≤ j ∧
            j < ((y : ℤ) * w + x0 + 1) * cc
        then m else pixels j := by
  intro n
  induction n with
  | zero =>
    intro pixels x0
    refine ⟨by simp, fun j => ?_⟩
    simp only [List.range_zero, List.foldl_nil, Nat.cast_zero, sub_zero]
    exact (if_neg (fun hh => absurd (lt_of_le_of_lt hh.1 hh.2) (lt_irrefl _))).symm
  | succ n ih =>
    intro pixels x0
    rw [List.range_succ, List.foldl_append, List.foldl_cons, List.foldl_nil]
    obtain ⟨hsnd, hfst⟩ := ih pixels x0
    simp only [genCol]
    rw [hD, hsnd]
    constructor
    · push_cast; ring
    · intro j
      rw [writeChannels_const tr.distanceMapping m D.channels _ _ hm j, hlen,
        hfst j]
      have e1 : ((y : ℤ) * w + x0 - ((n : ℕ) + 1 : ℕ) + 1) * cc
          = ((y : ℤ) * w + (x0 - n)) * cc := by push_cast; ring
      have e2 : ((y : ℤ) * w + x0 - n + 1) * cc - ((y : ℤ) * w + (x0 - n)) * cc
          = cc := by ring
      have e3 : ((y : ℤ) * w + x0 + 1) * cc - ((y : ℤ) * w + x0 - n + 1) * cc
          = (n : ℤ) * cc := by ring
      have e4 : (0 : ℤ) ≤ (n : ℤ) * cc := by positivity
      split_ifs with h1 h2 h3 <;> first | rfl | (exfalso; omega)

/-- One full row writes exactly the row's index block
[row*w*cc, (row*w + w)*cc) with the constant mapped value, whatever the
serpentine direction, and flips the direction. -/
theorem genRow_const (tr : SDFTransformation) (contours : List Contour)
    (combiner : Vector2 → List Contour → CombinedDist)
    (w cc : ℕ) (D : CombinedDist) (m : ℝ)
    (hD : ∀ p, combiner p contours = D)
    (hlen : D.channels.length = cc)
    (hm : ∀ u ∈ D.channels, tr.distanceMapping.map u = m)
    (st : (ℤ → ℝ) × ℤ) (row : ℕ) (hdir : st.2 = 1 ∨ st.2 = -1) :
    (genRow tr contours combiner w cc st row).2 = -st.2 ∧
    ∀ j, (genRow tr contours combiner w cc st row).1 j =
      if ((row : ℤ) * w) * cc ≤ j ∧ j < ((row : ℤ) * w + w) * cc
      then m else st.1 j := by
  rcases hdir with hd | hd
  · simp only [genRow, hd]
    rw [if_neg (by norm_num)]
    obtain ⟨hsnd, hfst⟩ := genCol_fold_asc tr contours combiner w cc row D m
      hD hlen hm w st.1 0
    refine ⟨by trivial, fun j => ?_⟩
    rw [hfst j]
    have e1 : ((row : ℤ) * w + 0) * cc = ((row : ℤ) * w) * cc := by ring
    have e2 : ((row : ℤ) * w + 0 + w) * cc = ((row : ℤ) * w + w) * cc := by
      ring
    rw [e1, e2]
  · simp only [genRow, hd]
    rw [if_pos (by norm_num)]
    obtain ⟨hsnd, hfst⟩ := genCol_fold_desc tr contours combiner w cc row D m
      hD hlen hm w st.1 ((w : ℤ) - 1)
    refine ⟨by trivial, fun j => ?_⟩
    rw [hfst j]
    have e1 : ((row : ℤ) * w + ((w : ℤ) - 1) - w + 1) * cc
        = ((row : ℤ) * w) * cc := by ring
    have e2 : ((row : ℤ) * w + ((w : ℤ) - 1) + 1) * cc
        = ((row : ℤ) * w + w) * cc := by ring
    rw [e1, e2]

/-- After r rows of the serpentine scan, the direction is still 1 or -1
and exactly the indices below r*w*cc hold the constant mapped value. -/
theorem genRow_fold_inv (tr : SDFTransformation) (contours : List Contour)
    (combiner : Vector2 → List Contour → CombinedDist)
    (w cc : ℕ) (D : CombinedDist) (m : ℝ)
    (hD : ∀ p, combiner p contours = D)
    (hlen : D.channels.length = cc)
    (hm : ∀ u ∈ D.channels, tr.distanceMapping.map u = m) :
    ∀ (r : ℕ) (pixels0 : ℤ → ℝ),
      (((List.range r).foldl (genRow tr contours combiner w cc)
          (pixels0, 1)).2 = 1 ∨
        ((List.range r).foldl (genRow tr contours combiner w cc)
          (pixels0, 1)).2 = -1) ∧
      ∀ j, ((List.range r).foldl (genRow tr contours combiner w cc)
          (pixels0, 1)).1 j =
        if 0 ≤ j ∧ j < ((r : ℤ) * w) * cc then m else pixels0 j := by
  intro r
  induction r with
  | zero =>
    intro pixels0
    refine ⟨Or.inl rfl, fun j => ?_⟩
    simp only [List.range_zero, List.foldl_nil, Nat.cast_zero, zero_mul]
    exact (if_neg (fun hh => absurd (lt_of_le_of_lt hh.1 hh.2) (lt_irrefl _))).symm
  | succ r ih =>
    intro pixels0
    rw [List.range_succ, List.foldl_append, List.foldl_cons, List.foldl_nil]
    obtain ⟨hdir, hchar⟩ := ih pixels0
    obtain ⟨hsnd, hrow⟩ := genRow_const tr contours combiner w cc D m
      hD hlen hm _ r hdir
    constructor
    · rw [hsnd]
      rcases hdir with h | h <;> rw [h] <;> [right; left] <;> norm_num
    · intro j
      rw [hrow j, hchar j]
      have e1 : (((r : ℕ) + 1 : ℕ) : ℤ) * w * cc
          = ((r : ℤ) * w + w) * cc := by push_cast; ring
      have e2 : ((r : ℤ) * w + w) * cc - ((r : ℤ) * w) * cc
          = (w : ℤ) * cc := by ring
      have e3 : (0 : ℤ) ≤ ((r : ℤ) * w) * cc := by positivity
      have e4 : (0 : ℤ) ≤ (w : ℤ) * cc := by positivity
      split_ifs with h1 h2 h3 <;> first | rfl | (exfalso; omega)

/-- generateDistanceField with a combiner that is constant on the shape's
contours fills exactly the whole buffer [0, height*width*channelCount) with
the mapped constant. -/
theorem generateDistanceField_const (tr : SDFTransformation) (shape : Shape)
    (combiner : Vector2 → List Contour → CombinedDist)
    (w h cc : ℕ) (pixels0 : ℤ → ℝ) (D : CombinedDist) (m : ℝ)
    (hD : ∀ p, combiner p shape.contours = D)
    (hlen : D.channels.length = cc)
    (hm : ∀ u ∈ D.channels, tr.distanceMapping.map u = m) :
    ∀ j, generateDistanceField tr shape combiner w h cc pixels0 j =
      if 0 ≤ j ∧ j < ((h : ℤ) * w) * cc then m else pixels0 j := by
  intro j
  exact (genRow_fold_inv tr shape.contours combiner w cc D m
    hD hlen hm h pixels0).2 j

/-- The sign-correction block flips a scalar distance when the point is not
filled but the distance is negative. -/
theorem resolveOverlappingSign_not_filled_scalar (filled : Prop)
    (hfilled : ¬ filled) (d : SignedDistance) (hneg : d.distance < 0) :
    resolveOverlappingSign filled (.scalar d) = .scalar ⟨-d.distance, d.dot⟩ := by
  unfold resolveOverlappingSign
  rw [if_pos (show (CombinedDist.scalar d).hasDistanceProp = true from rfl),
    if_neg (fun hiff => hfilled (hiff.mpr hneg))]

/-- The sign-correction block leaves any distance without a `distance`
property (MultiDistance, MultiAndTrueDistance) unchanged. -/
theorem resolveOverlappingSign_nonscalar (filled : Prop) (dist : CombinedDist)
    (h : dist.hasDistanceProp = false) :
    resolveOverlappingSign filled dist = dist := by
  unfold resolveOverlappingSign
  rw [if_neg (by rw [h]; exact Bool.false_ne_true)]

/-- An overlapping combiner over no contours with a scalar selector: the
selector returns its reset value (-MAX_VALUE, 0), the scanline is empty so
the point is not filled, and the sign-correction flips it to +MAX_VALUE. -/
theorem overlappingScalar_empty (sel : EdgeSelectorImpl SignedDistance)
    (hdist : sel.distance (sel.reset) = .scalar ⟨-MAX_VALUE, 0⟩)
    (p : Vector2) :
    overlappingCombinerDistance sel p [] = .scalar ⟨MAX_VALUE, 0⟩ := by
  have hfilled : ¬ (updateScanline p.y []).filled p.x := fun h => h rfl
  simp only [overlappingCombinerDistance, runSelector, List.foldl_nil, hdist]
  rw [resolveOverlappingSign_not_filled_scalar _ hfilled _
    (show -MAX_VALUE < 0 by linarith [MAX_VALUE_pos])]
  simp

/-- An overlapping combiner over no contours with a multi-channel selector:
the reset distance is returned unchanged (the sign-correction block is
unreachable for it). -/
theorem overlappingNonscalar_empty {St : Type} (sel : EdgeSelectorImpl St)
    (h : (sel.distance (sel.reset)).hasDistanceProp = false) (p : Vector2) :
    overlappingCombinerDistance sel p [] = sel.distance (sel.reset) := by
  simp only [overlappingCombinerDistance, runSelector, List.foldl_nil]
  exact resolveOverlappingSign_nonscalar _ _ h

/-- C8 (amended): on a shape with no contours every generator returns after
writing every pixel of the output, and every written pixel holds one
constant: the distance-mapped reset distance -MAX_VALUE for the simple
combiner (overlapSupport = false) and for both multi-channel generators,
but the distance-mapped +MAX_VALUE - the NEGATED sentinel - for the scalar
generators generateSDF and generatePSDF with overlapSupport = true (the
default), because the empty scanline reports the point as not filled and
the sign-correction block flips the negative reset distance. -/
theorem C8_emptyShape_generators (tr : SDFTransformation) (shape : Shape)
    (w h : ℕ) (pixels0 : ℤ → ℝ) (os : Bool)
    (hempty : shape.contours = []) :
    (∀ j, generateSDF os tr shape w h pixels0 j =
      if 0 ≤ j ∧ j < ((h : ℤ) * w) * 1 then
        tr.distanceMapping.map (if os then MAX_VALUE else -MAX_VALUE)
      else pixels0 j) ∧
    (∀ j, generatePSDF os tr shape w h pixels0 j =
      if 0 ≤ j ∧ j < ((h : ℤ) * w) * 1 then
        tr.distanceMapping.map (if os then MAX_VALUE else -MAX_VALUE)
      else pixels0 j) ∧
    (∀ j, generateMSDF os tr shape w h pixels0 j =
      if 0 ≤ j ∧ j < ((h : ℤ) * w) * 3 then
        tr.distanceMapping.map (-MAX_VALUE)
      else pixels0 j) ∧
    (∀ j, generateMTSDF os tr shape w h pixels0 j =
      if 0 ≤ j ∧ j < ((h : ℤ) * w) * 4 then
        tr.distanceMapping.map (-MAX_VALUE)
      else pixels0 j) := by
  have hmono : ∀ u ∈ [-MAX_VALUE], tr.distanceMapping.map u
      = tr.distanceMapping.map (-MAX_VALUE) := by
    intro u hu
    simp only [List.mem_singleton] at hu
    rw [hu]
  have hmtri : ∀ u ∈ [-MAX_VALUE, -MAX_VALUE, -MAX_VALUE],
      tr.distanceMapping.map u = tr.distanceMapping.map (-MAX_VALUE) := by
    intro u hu
    simp only [List.mem_cons, List.mem_singleton, List.not_mem_nil,
      or_false] at hu
    rcases hu with h | h | h <;> rw [h]
  have hmquad : ∀ u ∈ [-MAX_VALUE, -MAX_VALUE, -MAX_VALUE, -MAX_VALUE],
      tr.distanceMapping.map u = tr.distanceMapping.map (-MAX_VALUE) := by
    intro u hu
    simp only [List.mem_cons, List.mem_singleton, List.not_mem_nil,
      or_false] at hu
    rcases hu with h | h | h | h <;> rw [h]
  have hmpos : ∀ u ∈ [MAX_VALUE], tr.distanceMapping.map u
      = tr.distanceMapping.map MAX_VALUE := by
    intro u hu
    simp only [List.mem_singleton] at hu
    rw [hu]
  refine ⟨?_, ?_, ?_, ?_⟩
  · cases os
    · exact fun j => generateDistanceField_const tr shape
        (simpleCombinerDistance trueDistanceSelector) w h 1 pixels0
        (.scalar ⟨-MAX_VALUE, 0⟩) (tr.distanceMapping.map (-MAX_VALUE))
        (fun p => by rw [hempty]; rfl) rfl hmono j
    · exact fun j => generateDistanceField_const tr shape
        (overlappingCombinerDistance trueDistanceSelector) w h 1 pixels0
        (.scalar ⟨MAX_VALUE, 0⟩) (tr.distanceMapping.map MAX_VALUE)
        (fun p => by
          rw [hempty]
          exact overlappingScalar_empty trueDistanceSelector rfl p)
        rfl hmpos j
  · cases os
    · exact fun j => generateDistanceField_const tr shape
        (simpleCombinerDistance perpendicularDistanceSelector) w h 1 pixels0
        (.scalar ⟨-MAX_VALUE, 0⟩) (tr.distanceMapping.map (-MAX_VALUE))
        (fun p => by rw [hempty]; rfl) rfl hmono j
    · exact fun j => generateDistanceField_const tr shape
        (overlappingCombinerDistance perpendicularDistanceSelector) w h 1
        pixels0 (.scalar ⟨MAX_VALUE, 0⟩) (tr.distanceMapping.map MAX_VALUE)
        (fun p => by
          rw [hempty]
          exact overlappingScalar_empty perpendicularDistanceSelector rfl p)
        rfl hmpos j
  · cases os
    · exact fun j => generateDistanceField_const tr shape
        (simpleCombinerDistance multiDistanceSelector) w h 3 pixels0
        (.multi ⟨-MAX_VALUE, -MAX_VALUE, -MAX_VALUE⟩)
        (tr.distanceMapping.map (-MAX_VALUE))
        (fun p => by rw [hempty]; rfl) rfl hmtri j
    · exact fun j => generateDistanceField_const tr shape
        (overlappingCombinerDistance multiDistanceSelector) w h 3 pixels0
        (.multi ⟨-MAX_VALUE, -MAX_VALUE, -MAX_VALUE⟩)
        (tr.distanceMapping.map (-MAX_VALUE))
        (fun p => by
          rw [hempty]
          exact overlappingNonscalar_empty multiDistanceSelector rfl p)
        rfl hmtri j
  · cases os
    · exact fun j => generateDistanceField_const tr shape
        (simpleCombinerDistance multiAndTrueDistanceSelector) w h 4 pixels0
        (.multiTrue ⟨-MAX_VALUE, -MAX_VALUE, -MAX_VALUE, -MAX_VALUE⟩)
        (tr.distanceMapping.map (-MAX_VALUE))
        (fun p => by rw [hempty]; rfl) rfl hmquad j
    · exact fun j => generateDistanceField_const tr shape
        (overlappingCombinerDistance multiAndTrueDistanceSelector) w h 4
        pixels0 (.multiTrue ⟨-MAX_VALUE, -MAX_VALUE, -MAX_VALUE, -MAX_VALUE⟩)
        (tr.distanceMapping.map (-MAX_VALUE))
        (fun p => by
          rw [hempty]
          exact overlappingNonscalar_empty multiAndTrueDistanceSelector rfl p)
        rfl hmquad j

/-- Witness for C8: the empty shape, a 1x1 one-channel output, the identity
transformation, overlapSupport = true (the default configuration). -/
theorem C8_emptyShape_generators_witness :
    emptyShape.contours = [] ∧
    ((∀ j, generateSDF true idTransformation emptyShape 1 1
        (fun _ => (0 : ℝ)) j =
      if 0 ≤ j ∧ j < ((1 : ℤ) * 1) * 1 then
        idTransformation.distanceMapping.map
          (if true then MAX_VALUE else -MAX_VALUE)
      else (0 : ℝ)) ∧
    (∀ j, generatePSDF true idTransformation emptyShape 1 1
        (fun _ => (0 : ℝ)) j =
      if 0 ≤ j ∧ j < ((1 : ℤ) * 1) * 1 then
        idTransformation.distanceMapping.map
          (if true then MAX_VALUE else -MAX_VALUE)
      else (0 : ℝ)) ∧
    (∀ j, generateMSDF true idTransformation emptyShape 1 1
        (fun _ => (0 : ℝ)) j =
      if 0 ≤ j ∧ j < ((1 : ℤ) * 1) * 3 then
        idTransformation.distanceMapping.map (-MAX_VALUE)
      else (0 : ℝ)) ∧
    (∀ j, generateMTSDF true idTransformation emptyShape 1 1
        (fun _ => (0 : ℝ)) j =
      if 0 ≤ j ∧ j < ((1 : ℤ) * 1) * 4 then
        idTransformation.distanceMapping.map (-MAX_VALUE)
      else (0 : ℝ))) :=
  ⟨rfl, C8_emptyShape_generators idTransformation emptyShape 1 1
    (fun _ => (0 : ℝ)) true rfl⟩

/-- C8 counterexample: on the empty shape with the default configuration
(overlapSupport = true) and the identity distance mapping, generateSDF
stores +MAX_VALUE into the pixel, which differs from the distance-mapped
selector reset value -MAX_VALUE the claim requires. -/
theorem C8_emptyShape_counterexample :
    (trueDistanceSelector.reset).distance = -MAX_VALUE ∧
    DistanceMapping.identity.map (-MAX_VALUE) = -MAX_VALUE ∧
    generateSDF true idTransformation emptyShape 1 1 (fun _ => (0 : ℝ)) 0 =
      MAX_VALUE ∧
    (MAX_VALUE : ℝ) ≠ -MAX_VALUE := by
  refine ⟨rfl, ?_, ?_, ?_⟩
  · simp [DistanceMapping.identity, DistanceMapping.map]
  · have hval := generateDistanceField_const idTransformation emptyShape
      (overlappingCombinerDistance trueDistanceSelector) 1 1 1
      (fun _ => (0 : ℝ)) (.scalar ⟨MAX_VALUE, 0⟩) MAX_VALUE
      (fun p => overlappingScalar_empty trueDistanceSelector rfl p) rfl
      (by
        intro u hu
        simp only [CombinedDist.channels, List.mem_singleton] at hu
        rw [hu]
        simp [idTransformation, DistanceMapping.identity, DistanceMapping.map])
      0
    rw [show generateSDF true idTransformation emptyShape 1 1
        (fun _ => (0 : ℝ))
      = generateDistanceField idTransformation emptyShape
        (overlappingCombinerDistance trueDistanceSelector) 1 1 1
        (fun _ => (0 : ℝ)) from rfl, hval, if_pos (by norm_num)]
  · have := MAX_VALUE_pos
    intro h
    linarith

/-! ## Theorems: edgeColoringSimple color invariant (C10) -/

/-- setColor stores the given color. -/
theorem setColor_color (e : EdgeSegment) (c : ℕ) : (e.setColor c).color = c := by
  cases e <;> rfl

/-- setEdgeColorAt preserves the length. -/
theorem setEdgeColorAt_length :
    ∀ (es : List EdgeSegment) (idx c : ℕ),
      (setEdgeColorAt es idx c).length = es.length := by
  intro es
  induction es with
  | nil => intro idx c; rfl
  | cons e rest ih =>
    intro idx c
    cases idx with
    | zero => rfl
    | succ n => simp only [setEdgeColorAt, List.length_cons, ih]

/-- Element-wise description of setEdgeColorAt. -/
theorem setEdgeColorAt_getD (d : EdgeSegment) :
    ∀ (es : List EdgeSegment) (idx c j : ℕ),
      (setEdgeColorAt es idx c).getD j d =
        if j = idx ∧ j < es.length then (es.getD j d).setColor c
        else es.getD j d := by
  intro es
  induction es with
  | nil =>
    intro idx c j
    rw [show setEdgeColorAt [] idx c = [] from rfl,
      if_neg (by simp only [List.length_nil]; omega)]
  | cons e rest ih =>
    intro idx c j
    cases idx with
    | zero =>
      cases j with
      | zero =>
        rw [show setEdgeColorAt (e :: rest) 0 c = e.setColor c :: rest
          from rfl, List.getD_cons_zero, List.getD_cons_zero,
          if_pos ⟨rfl, by simp⟩]
      | succ k =>
        rw [show setEdgeColorAt (e :: rest) 0 c = e.setColor c :: rest
          from rfl, List.getD_cons_succ, List.getD_cons_succ,
          if_neg (by omega)]
    | succ n =>
      cases j with
      | zero =>
        rw [show setEdgeColorAt (e :: rest) (n + 1) c
            = e :: setEdgeColorAt rest n c from rfl,
          List.getD_cons_zero, List.getD_cons_zero, if_neg (by omega)]
      | succ k =>
        rw [show setEdgeColorAt (e :: rest) (n + 1) c
            = e :: setEdgeColorAt rest n c from rfl,
          List.getD_cons_succ, List.getD_cons_succ, ih]
        by_cases hk : k = n ∧ k < rest.length
        · rw [if_pos hk, if_pos (by simp only [List.length_cons]; omega)]
        · rw [if_neg hk, if_neg (by simp only [List.length_cons]; omega)]

/-- A list member is a getD value at some valid index. -/
theorem mem_exists_getD (d : EdgeSegment) (l : List EdgeSegment)
    (e : EdgeSegment) (he : e ∈ l) :
    ∃ j, j < l.length ∧ l.getD j d = e := by
  obtain ⟨j, hj, hget⟩ := List.mem_iff_getElem.mp he
  exact ⟨j, hj, by rw [List.getD_eq_getElem l d hj]; exact hget⟩

/-- The color-state values are among the assignable colors. -/
theorem S3_GoodColor {c : ℕ} (h : S3 c) : GoodColor c := by
  rcases h with h | h | h
  · exact Or.inl h
  · exact Or.inr (Or.inl h)
  · exact Or.inr (Or.inr (Or.inl h))

/-- WHITE is an assignable color. -/
theorem white_GoodColor : GoodColor WHITE :=
  Or.inr (Or.inr (Or.inr rfl))

/-- switchColor keeps the color state inside the two-channel palette
{CYAN, MAGENTA, YELLOW}, whatever the seed and banned color. -/
theorem switchColor_S3 (seed color banned : ℕ) (h : S3 color) :
    S3 (switchColor seed color banned).1 := by
  unfold S3 at h ⊢
  unfold switchColor
  by_cases hc : color &&& banned = RED ∨ color &&& banned = GREEN ∨
      color &&& banned = BLUE
  · rw [if_pos hc]
    rcases hc with h1 | h1 | h1 <;> rw [h1] <;>
      first
        | exact Or.inl rfl
        | exact Or.inr (Or.inl rfl)
        | exact Or.inr (Or.inr rfl)
  · rw [if_neg hc]
    have hv1 : seed &&& 1 ≤ 1 := Nat.and_le_right
    have hv : seed &&& 1 = 0 ∨ seed &&& 1 = 1 := by omega
    rcases h with h1 | h1 | h1 <;> rcases hv with h2 | h2 <;>
      rw [h1] <;> simp only [seedExtract2, h2] <;>
      first
        | exact Or.inl rfl
        | exact Or.inr (Or.inl rfl)
        | exact Or.inr (Or.inr rfl)

/-- initColor yields one of the three two-channel colors. -/
theorem initColor_S3 (seed : ℕ) : S3 (initColor seed).1 := by
  unfold S3
  have h3 : seed % 3 = 0 ∨ seed % 3 = 1 ∨ seed % 3 = 2 := by omega
  rcases h3 with h | h | h <;>
    simp only [initColor, seedExtract3, h] <;>
    first
      | exact Or.inl rfl
      | exact Or.inr (Or.inl rfl)
      | exact Or.inr (Or.inr rfl)

/-- Every residue below m is hit by (start + t) % m for some t < m. -/
theorem mod_coverage (m start j : ℕ) (hm : 0 < m) (hj : j < m) :
    ∃ t, t < m ∧ (start + t) % m = j := by
  refine ⟨(j + m - start % m) % m, Nat.mod_lt _ hm, ?_⟩
  have hs : start % m < m := Nat.mod_lt _ hm
  rw [← Nat.mod_add_mod, Nat.add_mod_mod,
    show start % m + (j + m - start % m) = j + m by omega,
    Nat.add_mod_right, Nat.mod_eq_of_lt hj]

/-- The colors the teardrop branch distributes - trichotomy-indexed lookups
in [c0, WHITE, c2] - are assignable, because for m >= 3 the trichotomy
stays within {-1, 0, 1}. -/
theorem teardropColor_good (c0 c2 : ℕ) (h0 : S3 c0) (h2 : S3 c2)
    (m i : ℕ) (hm : 3 ≤ m) (hi : i < m) :
    GoodColor (([c0, WHITE, c2] : List ℕ).getD
      (1 + symmetricalTrichotomy i m).toNat BLACK) := by
  have hmm : m - 1 + 1 = m := by omega
  have hcf := trichotomy_closed_form (m - 1) i (by omega) (by omega)
  rw [hmm] at hcf
  have hrange : symmetricalTrichotomy i m = -1 ∨
      symmetricalTrichotomy i m = 0 ∨ symmetricalTrichotomy i m = 1 := by
    rw [hcf]; split_ifs <;> norm_num
  rcases hrange with h | h | h <;> rw [h]
  · rw [show ((1 : ℤ) + -1).toNat = 0 from rfl, List.getD_cons_zero]
    exact S3_GoodColor h0
  · rw [show ((1 : ℤ) + 0).toNat = 1 from rfl,
      show (1 : ℕ) = 0 + 1 from rfl, List.getD_cons_succ,
      List.getD_cons_zero]
    exact white_GoodColor
  · rw [show ((1 : ℤ) + 1).toNat = 2 from rfl,
      show (2 : ℕ) = (0 + 1) + 1 from rfl, List.getD_cons_succ,
      List.getD_cons_succ, List.getD_cons_zero]
    exact S3_GoodColor h2

/-- Characterization of the teardrop index loop: the length is preserved
and every index hit by (corner + t) % m for t < n holds an assignable
color. -/
theorem teardropFold_char (corner m : ℕ) (colors : List ℕ)
    (hcol : ∀ i, i < m →
      GoodColor (colors.getD (1 + symmetricalTrichotomy i m).toNat BLACK)) :
    ∀ (n : ℕ), n ≤ m → ∀ (es0 : List EdgeSegment), es0.length = m →
      ((List.range n).foldl (teardropStep corner m colors) es0).length = m ∧
      ∀ j, (∃ t, t < n ∧ (corner + t) % m = j) →
        GoodColor ((((List.range n).foldl (teardropStep corner m colors)
          es0).getD j dummyEdge).color) := by
  intro n
  induction n with
  | zero =>
    intro _ es0 hlen
    refine ⟨by simpa using hlen, fun j hj => ?_⟩
    obtain ⟨t, ht, _⟩ := hj
    omega
  | succ n ih =>
    intro hn es0 hlen
    rw [List.range_succ, List.foldl_append, List.foldl_cons, List.foldl_nil]
    obtain ⟨ihlen, ihchar⟩ := ih (by omega) es0 hlen
    constructor
    · rw [teardropStep, setEdgeColorAt_length]
      exact ihlen
    · intro j hj
      rw [teardropStep, setEdgeColorAt_getD]
      split_ifs with hcase
      · rw [setColor_color]
        exact hcol n (by omega)
      · obtain ⟨t, ht, htj⟩ := hj
        rcases Nat.lt_succ_iff_lt_or_eq.mp ht with ht2 | ht2
        · exact ihchar j ⟨t, ht2, htj⟩
        · subst ht2
          exact absurd ⟨htj.symm, by
            rw [ihlen, ← htj]
            exact Nat.mod_lt _ (by omega)⟩ hcase

/-- All edges after the full teardrop loop hold assignable colors. -/
theorem teardropFold_good (corner m : ℕ) (colors : List ℕ)
    (hcol : ∀ i, i < m →
      GoodColor (colors.getD (1 + symmetricalTrichotomy i m).toNat BLACK))
    (hm : 0 < m) (es0 : List EdgeSegment) (hlen : es0.length = m) :
    ∀ e ∈ (List.range m).foldl (teardropStep corner m colors) es0,
      GoodColor e.color := by
  obtain ⟨hlen2, hchar⟩ := teardropFold_char corner m colors hcol m
    le_rfl es0 hlen
  intro e he
  obtain ⟨j, hjlt, hgetD⟩ := mem_exists_getD dummyEdge _ e he
  have hjm : j < m := by rw [← hlen2]; exact hjlt
  obtain ⟨t, ht, htj⟩ := mod_coverage m corner j hm hjm
  have hfin := hchar j ⟨t, ht, htj⟩
  rw [hgetD] at hfin
  exact hfin

/-- All edges produced by the teardrop split fallback hold the three given
colors. -/
theorem teardropSplit_good (edges : List EdgeSegment) (corner c0 c1 c2 : ℕ)
    (hG0 : GoodColor c0) (hG1 : GoodColor c1) (hG2 : GoodColor c2)
    (hcorner : corner < edges.length) (hlen : edges.length ≤ 2) :
    ∀ e ∈ teardropSplit edges corner c0 c1 c2, GoodColor e.color := by
  match edges with
  | [] => simp at hcorner
  | [e0] =>
    have hc0 : corner = 0 := by simp at hcorner; omega
    subst hc0
    have heval : teardropSplit [e0] 0 c0 c1 c2 =
        [e0.splitInThirds.1.setColor c0, e0.splitInThirds.2.1.setColor c1,
          e0.splitInThirds.2.2.setColor c2] := rfl
    rw [heval]
    intro e he
    simp only [List.mem_cons, List.not_mem_nil, or_false] at he
    rcases he with rfl | rfl | rfl <;> rw [setColor_color] <;> assumption
  | [e0, e1] =>
    have hc : corner = 0 ∨ corner = 1 := by simp at hcorner; omega
    rcases hc with hc | hc <;> subst hc
    · have heval : teardropSplit [e0, e1] 0 c0 c1 c2 =
          [e0.splitInThirds.1.setColor c0, e0.splitInThirds.2.1.setColor c0,
            e0.splitInThirds.2.2.setColor c1, e1.splitInThirds.1.setColor c1,
            e1.splitInThirds.2.1.setColor c2,
            e1.splitInThirds.2.2.setColor c2] := rfl
      rw [heval]
      intro e he
      simp only [List.mem_cons, List.not_mem_nil, or_false] at he
      rcases he with rfl | rfl | rfl | rfl | rfl | rfl <;>
        rw [setColor_color] <;> assumption
    · have heval : teardropSplit [e0, e1] 1 c0 c1 c2 =
          [e1.splitInThirds.1.setColor c0, e1.splitInThirds.2.1.setColor c0,
            e1.splitInThirds.2.2.setColor c1, e0.splitInThirds.1.setColor c1,
            e0.splitInThirds.2.1.setColor c2,
            e0.splitInThirds.2.2.setColor c2] := rfl
      rw [heval]
      intro e he
      simp only [List.mem_cons, List.not_mem_nil, or_false] at he
      rcases he with rfl | rfl | rfl | rfl | rfl | rfl <;>
        rw [setColor_color] <;> assumption
  | e0 :: e1 :: e2 :: rest => simp at hlen

/-- The teardrop branch keeps the color state in the palette and assigns
only assignable colors. -/
theorem teardropApply_good (corner : ℕ) (edges : List EdgeSegment)
    (color seed : ℕ) (hS3 : S3 color) (hcorner : corner < edges.length)
    (hne : 0 < edges.length) :
    S3 (teardropApply corner edges color seed).2.1 ∧
    ∀ e ∈ (teardropApply corner edges color seed).1, GoodColor e.color := by
  have hS1 : S3 (switchColor seed color BLACK).1 := switchColor_S3 _ _ _ hS3
  have hS2 : S3 (switchColor (switchColor seed color BLACK).2
      (switchColor seed color BLACK).1 BLACK).1 := switchColor_S3 _ _ _ hS1
  simp only [teardropApply]
  by_cases h3 : 3 ≤ edges.length
  · rw [if_pos h3]
    refine ⟨hS2, ?_⟩
    exact teardropFold_good corner edges.length _
      (fun i hi => teardropColor_good _ _ hS1 hS2 edges.length i h3 hi)
      hne edges rfl
  · rw [if_neg h3]
    refine ⟨hS2, ?_⟩
    exact teardropSplit_good edges corner _ WHITE _
      (S3_GoodColor hS1) white_GoodColor (S3_GoodColor hS2)
      hcorner (by omega)

/-- The edge list written by one multiple-corner iteration. -/
theorem multiCornerStep_fst (corners : List ℕ) (start initialColor m : ℕ)
    (st : List EdgeSegment × ℕ × ℕ × ℕ) (i : ℕ) :
    (multiCornerStep corners start initialColor m st i).1 =
      setEdgeColorAt st.1 ((start + i) % m)
        (multiCornerStep corners start initialColor m st i).2.2.1 := rfl

/-- The color state stays in the palette across a multiple-corner
iteration. -/
theorem multiCornerStep_S3 (corners : List ℕ) (start initialColor m : ℕ)
    (st : List EdgeSegment × ℕ × ℕ × ℕ) (i : ℕ) (h : S3 st.2.2.1) :
    S3 (multiCornerStep corners start initialColor m st i).2.2.1 := by
  simp only [multiCornerStep]
  by_cases hc : st.2.1 + 1 < corners.length ∧
      corners.getD (st.2.1 + 1) 0 = (start + i) % m
  · rw [if_pos hc]
    exact switchColor_S3 _ _ _ h
  · rw [if_neg hc]
    exact h

/-- Characterization of the multiple-corner loop: length preserved, color
state in the palette, and every index hit so far holds an assignable
color. -/
theorem multiFold_char (corners : List ℕ) (start initialColor m : ℕ) :
    ∀ (n : ℕ), n ≤ m → ∀ (es0 : List EdgeSegment) (a0 : ℕ × ℕ × ℕ),
      es0.length = m → S3 a0.2.1 →
      ((List.range n).foldl
        (multiCornerStep corners start initialColor m) (es0, a0)).1.length
          = m ∧
      S3 ((List.range n).foldl
        (multiCornerStep corners start initialColor m) (es0, a0)).2.2.1 ∧
      ∀ j, (∃ t, t < n ∧ (start + t) % m = j) →
        GoodColor ((((List.range n).foldl
          (multiCornerStep corners start initialColor m)
          (es0, a0)).1.getD j dummyEdge).color) := by
  intro n
  induction n with
  | zero =>
    intro _ es0 a0 hlen ha0
    refine ⟨by simpa using hlen, ha0, fun j hj => ?_⟩
    obtain ⟨t, ht, _⟩ := hj
    omega
  | succ n ih =>
    intro hn es0 a0 hlen ha0
    rw [List.range_succ, List.foldl_append, List.foldl_cons, List.foldl_nil]
    obtain ⟨ihlen, ihS3, ihchar⟩ := ih (by omega) es0 a0 hlen ha0
    refine ⟨?_, ?_, ?_⟩
    · rw [multiCornerStep_fst, setEdgeColorAt_length]
      exact ihlen
    · exact multiCornerStep_S3 _ _ _ _ _ _ ihS3
    · intro j hj
      rw [multiCornerStep_fst, setEdgeColorAt_getD]
      split_ifs with hcase
      · rw [setColor_color]
        exact S3_GoodColor (multiCornerStep_S3 _ _ _ _ _ _ ihS3)
      · obtain ⟨t, ht, htj⟩ := hj
        rcases Nat.lt_succ_iff_lt_or_eq.mp ht with ht2 | ht2
        · exact ihchar j ⟨t, ht2, htj⟩
        · subst ht2
          exact absurd ⟨htj.symm, by
            rw [ihlen, ← htj]
            exact Nat.mod_lt _ (by omega)⟩ hcase

/-- The multiple-corner branch keeps the color state in the palette and
assigns only assignable colors. -/
theorem multiCornerApply_good (corners : List ℕ) (edges : List EdgeSegment)
    (color seed : ℕ) (hS3 : S3 color) (hne : 0 < edges.length) :
    S3 (multiCornerApply corners edges color seed).2.1 ∧
    ∀ e ∈ (multiCornerApply corners edges color seed).1,
      GoodColor e.color := by
  simp only [multiCornerApply]
  obtain ⟨hlen2, hS3r, hchar⟩ := multiFold_char corners (corners.getD 0 0)
    (switchColor seed color BLACK).1 edges.length edges.length le_rfl edges
    (0, (switchColor seed color BLACK).1, (switchColor seed color BLACK).2)
    rfl (switchColor_S3 _ _ _ hS3)
  refine ⟨hS3r, fun e he => ?_⟩
  obtain ⟨j, hjlt, hgetD⟩ := mem_exists_getD dummyEdge _ e he
  have hjm : j < edges.length := by rw [← hlen2]; exact hjlt
  obtain ⟨t, ht, htj⟩ := mod_coverage edges.length (corners.getD 0 0) j
    hne hjm
  have hfin := hchar j ⟨t, ht, htj⟩
  rw [hgetD] at hfin
  exact hfin

/-- Corner indices reported by the detection loop are positions within the
edge list. -/
theorem detectCorners_aux (θ : ℝ) :
    ∀ (l : List EdgeSegment) (acc : List ℕ × Vector2 × ℕ),
      (∀ x ∈ acc.1, x < acc.2.2) →
      ((l.foldl (fun (acc : List ℕ × Vector2 × ℕ) edge =>
        (if isCorner (acc.2.1.normalize true)
            ((edge.direction 0).normalize true) θ
          then acc.1 ++ [acc.2.2] else acc.1,
          edge.direction 1, acc.2.2 + 1)) acc).2.2 = acc.2.2 + l.length ∧
      ∀ x ∈ (l.foldl (fun (acc : List ℕ × Vector2 × ℕ) edge =>
        (if isCorner (acc.2.1.normalize true)
            ((edge.direction 0).normalize true) θ
          then acc.1 ++ [acc.2.2] else acc.1,
          edge.direction 1, acc.2.2 + 1)) acc).1,
        x < acc.2.2 + l.length) := by
  intro l
  induction l with
  | nil =>
    intro acc hacc
    exact ⟨by simp, by simpa using hacc⟩
  | cons e rest ih =>
    intro acc hacc
    rw [List.foldl_cons]
    have hacc2 : ∀ x ∈ (if isCorner (acc.2.1.normalize true)
        ((e.direction 0).normalize true) θ
        then acc.1 ++ [acc.2.2] else acc.1), x < acc.2.2 + 1 := by
      intro x hx
      by_cases hic : isCorner (acc.2.1.normalize true)
          ((e.direction 0).normalize true) θ
      · rw [if_pos hic] at hx
        rcases List.mem_append.mp hx with hx | hx
        · exact lt_trans (hacc x hx) (Nat.lt_succ_self _)
        · rw [List.mem_singleton] at hx
          omega
      · rw [if_neg hic] at hx
        exact lt_trans (hacc x hx) (Nat.lt_succ_self _)
    obtain ⟨h1, h2⟩ := ih
      (if isCorner (acc.2.1.normalize true)
          ((e.direction 0).normalize true) θ
        then acc.1 ++ [acc.2.2] else acc.1,
        e.direction 1, acc.2.2 + 1) hacc2
    constructor
    · rw [h1]
      show acc.2.2 + 1 + rest.length = acc.2.2 + (e :: rest).length
      simp only [List.length_cons]
      omega
    · intro x hx
      have hlt : x < acc.2.2 + 1 + rest.length := h2 x hx
      show x < acc.2.2 + (e :: rest).length
      simp only [List.length_cons]
      omega

/-- detectCorners only reports indices below the edge count. -/
theorem detectCorners_lt (edges : List EdgeSegment) (θ : ℝ) :
    ∀ x ∈ detectCorners edges θ, x < edges.length := by
  intro x hx
  unfold detectCorners at hx
  cases hl : edges.getLast? with
  | none => rw [hl] at hx; simp at hx
  | some lastEdge =>
    rw [hl] at hx
    have hfin := (detectCorners_aux θ edges ([], lastEdge.direction 1, 0)
      (by intro y hy; simp at hy)).2 x hx
    have hzero : (([], lastEdge.direction 1, 0) :
        List ℕ × Vector2 × ℕ).2.2 = 0 := rfl
    rw [hzero] at hfin
    omega

/-- One contour pass of edgeColoringSimple keeps the color state in the
palette and leaves only assignable edge colors. -/
theorem colorContourSimple_good (θ : ℝ) (c : Contour) (color seed : ℕ)
    (hS3 : S3 color) :
    S3 (colorContourSimple θ c color seed).2.1 ∧
    ∀ e ∈ (colorContourSimple θ c color seed).1.edges,
      GoodColor e.color := by
  by_cases hlen : c.edges.length = 0
  · simp only [colorContourSimple, if_pos hlen]
    refine ⟨hS3, fun e he => ?_⟩
    rw [List.length_eq_zero.mp hlen] at he
    simp at he
  · rcases hd : detectCorners c.edges θ with _ | ⟨k, _ | ⟨k2, rest⟩⟩
    · simp only [colorContourSimple, if_neg hlen, hd]
      refine ⟨switchColor_S3 _ _ _ hS3, fun e he => ?_⟩
      simp only [List.mem_map] at he
      obtain ⟨e0, _, rfl⟩ := he
      rw [setColor_color]
      exact S3_GoodColor (switchColor_S3 _ _ _ hS3)
    · simp only [colorContourSimple, if_neg hlen, hd]
      have hk : k < c.edges.length := detectCorners_lt c.edges θ k
        (by rw [hd]; exact List.mem_singleton.mpr rfl)
      have hgood := teardropApply_good k c.edges color seed hS3 hk
        (by omega)
      exact ⟨hgood.1, hgood.2⟩
    · simp only [colorContourSimple, if_neg hlen, hd]
      have hgood := multiCornerApply_good (k :: k2 :: rest) c.edges color
        seed hS3 (by omega)
      exact ⟨hgood.1, hgood.2⟩

/-- The outer contour loop of edgeColoringSimple preserves the palette
invariant and leaves only assignable colors on all processed contours. -/
theorem colorShapeFold_good (θ : ℝ) :
    ∀ (cs : List Contour) (acc : List Contour × ℕ × ℕ),
      S3 acc.2.1 → (∀ c ∈ acc.1, ∀ e ∈ c.edges, GoodColor e.color) →
      S3 ((cs.foldl (colorShapeStep θ) acc).2.1) ∧
      ∀ c ∈ (cs.foldl (colorShapeStep θ) acc).1, ∀ e ∈ c.edges,
        GoodColor e.color := by
  intro cs
  induction cs with
  | nil =>
    intro acc h1 h2
    exact ⟨h1, h2⟩
  | cons c rest ih =>
    intro acc h1 h2
    rw [List.foldl_cons]
    apply ih
    · exact (colorContourSimple_good θ c acc.2.1 acc.2.2 h1).1
    · intro c2 hc2 e he
      rcases List.mem_append.mp hc2 with hc2 | hc2
      · exact h2 c2 hc2 e he
      · rw [List.mem_singleton] at hc2
        subst hc2
        exact (colorContourSimple_good θ c acc.2.1 acc.2.2 h1).2 e he

/-- C10: after edgeColoringSimple completes on any shape, with any angle
threshold and seed, the color of every edge of every contour is one of
CYAN, MAGENTA, YELLOW or WHITE - at least two of the three channels are
set, so no edge is left BLACK or assigned a single-channel color. -/
theorem C10_edgeColoringSimple_colors (shape : Shape)
    (angleThreshold : ℝ) (seed : ℕ) :
    ∀ c ∈ (edgeColoringSimple shape angleThreshold seed).contours,
      ∀ e ∈ c.edges,
        e.color = CYAN ∨ e.color = MAGENTA ∨ e.color = YELLOW ∨
          e.color = WHITE := by
  intro c hc e he
  exact (colorShapeFold_good (Real.sin angleThreshold) shape.contours
    ([], (initColor seed).1, (initColor seed).2) (initColor_S3 seed)
    (by intro c2 hc2; simp at hc2)).2 c hc e he

/-! ## Theorems: edge coloring by distance on the four-spike shape (C3) -/

/-- Shared-endpoint shortcut of edgeToEdgeDistance. -/
theorem edgeToEdge_zero_of_shared (a b : EdgeSegment) (p : ℕ)
    (h : (a.point 0).equals (b.point 0) ∨ (a.point 0).equals (b.point 1) ∨
      (a.point 1).equals (b.point 0) ∨ (a.point 1).equals (b.point 1)) :
    edgeToEdgeDistance a b p = 0 := by
  simp only [edgeToEdgeDistance]
  rw [if_pos h]

/-- normalize(true) of a vector that already has unit squared length. -/
theorem normalize_unit (x y : ℝ) (h : x * x + y * y = 1) :
    (Vector2.mk x y).normalize true = ⟨x, y⟩ := by
  simp only [Vector2.normalize, Vector2.length]
  rw [h, Real.sqrt_one, if_pos (by norm_num : (1 : ℝ) ≠ 0)]
  exact congrArg₂ Vector2.mk (by rw [div_one]) (by rw [div_one])

/-- A one-edge spline against a one-edge spline reduces to a single
edge-to-edge distance test. -/
theorem splineToSpline_single (es : List EdgeSegment) (i j p : ℕ) :
    splineToSplineDistance es i (i + 1) j (j + 1) p =
      if 0 < MAX_VALUE then
        min MAX_VALUE (edgeToEdgeDistance (es.getD i dummyEdge)
          (es.getD j dummyEdge) p)
      else MAX_VALUE := by
  simp only [splineToSplineDistance]
  rw [show i + 1 - i = 1 from by omega, show j + 1 - j = 1 from by omega]
  rfl

/-- C3: edgeColoringByDistance can leave two edges that meet at a detected
corner with the SAME two-channel color. On the four-spike contour
C->T0->C->T1 with angleThreshold 0 and seed 0: every edge boundary is a
corner; all spline-to-spline distances are zero (shared endpoints), so the
zero-distance loop builds the complete graph K4 before coloring;
colorSecondDegreeGraph then reaches vertex 3 with zero possible colors
(its switch has no case for mask 0) and leaves the default color 0 - the
same color as its graph neighbor vertex 0; the final application therefore
paints both edge 3 and edge 0 YELLOW, and their color intersection has
two channels, violating the claimed popcount bound of 1 across corner 0. -/
theorem C3_byDistance_adjacent_same_color :
    detectCorners spikeEdges (Real.sin 0) = [0, 1, 2, 3] ∧
    (∀ a ∈ spikeEdges, ∀ b ∈ spikeEdges, edgeToEdgeDistance a b 16 = 0) ∧
    (∀ i ∈ [0, 1, 2, 3], ∀ j ∈ [0, 1, 2, 3],
      splineToSplineDistance spikeEdges i (i + 1) j (j + 1) 16 = 0) ∧
    (colorSecondDegreeGraph spikeK4 4 0).1 = [0, 1, 2, 0] ∧
    (spikeK4.getD 3 []).getD 0 0 ≠ 0 ∧
    [YELLOW, CYAN, MAGENTA].getD
      ((colorSecondDegreeGraph spikeK4 4 0).1.getD 0 0) BLACK = YELLOW ∧
    [YELLOW, CYAN, MAGENTA].getD
      ((colorSecondDegreeGraph spikeK4 4 0).1.getD 3 0) BLACK = YELLOW ∧
    numChannels (YELLOW &&& YELLOW) = 2 := by
  have hz : ∀ a ∈ spikeEdges, ∀ b ∈ spikeEdges,
      edgeToEdgeDistance a b 16 = 0 := by
    intro a ha b hb
    simp only [spikeEdges] at ha hb
    fin_cases ha <;> fin_cases hb <;>
      apply edgeToEdge_zero_of_shared <;>
      first
        | refine Or.inl ⟨?_, ?_⟩ <;>
            (norm_num [spikeE0, spikeE1, spikeE2, spikeE3,
              EdgeSegment.point, Vector2.mix, mix]; done)
        | refine Or.inr (Or.inl ⟨?_, ?_⟩) <;>
            (norm_num [spikeE0, spikeE1, spikeE2, spikeE3,
              EdgeSegment.point, Vector2.mix, mix]; done)
        | refine Or.inr (Or.inr (Or.inl ⟨?_, ?_⟩)) <;>
            (norm_num [spikeE0, spikeE1, spikeE2, spikeE3,
              EdgeSegment.point, Vector2.mix, mix]; done)
        | refine Or.inr (Or.inr (Or.inr ⟨?_, ?_⟩)) <;>
            (norm_num [spikeE0, spikeE1, spikeE2, spikeE3,
              EdgeSegment.point, Vector2.mix, mix]; done)
  refine ⟨?_, hz, ?_, rfl, by decide, rfl, rfl, rfl⟩
  · have hd00 : spikeE0.direction 0 = (⟨1, 0⟩ : Vector2) := by
      simp only [spikeE0, EdgeSegment.direction, Vector2.subtract]
      exact congrArg₂ Vector2.mk (by norm_num) (by norm_num)
    have hd01 : spikeE0.direction 1 = (⟨1, 0⟩ : Vector2) := by
      simp only [spikeE0, EdgeSegment.direction, Vector2.subtract]
      exact congrArg₂ Vector2.mk (by norm_num) (by norm_num)
    have hd10 : spikeE1.direction 0 = (⟨-1, 0⟩ : Vector2) := by
      simp only [spikeE1, EdgeSegment.direction, Vector2.subtract]
      exact congrArg₂ Vector2.mk (by norm_num) (by norm_num)
    have hd11 : spikeE1.direction 1 = (⟨-1, 0⟩ : Vector2) := by
      simp only [spikeE1, EdgeSegment.direction, Vector2.subtract]
      exact congrArg₂ Vector2.mk (by norm_num) (by norm_num)
    have hd20 : spikeE2.direction 0 = (⟨0, 1⟩ : Vector2) := by
      simp only [spikeE2, EdgeSegment.direction, Vector2.subtract]
      exact congrArg₂ Vector2.mk (by norm_num) (by norm_num)
    have hd21 : spikeE2.direction 1 = (⟨0, 1⟩ : Vector2) := by
      simp only [spikeE2, EdgeSegment.direction, Vector2.subtract]
      exact congrArg₂ Vector2.mk (by norm_num) (by norm_num)
    have hd30 : spikeE3.direction 0 = (⟨0, -1⟩ : Vector2) := by
      simp only [spikeE3, EdgeSegment.direction, Vector2.subtract]
      exact congrArg₂ Vector2.mk (by norm_num) (by norm_num)
    have hd31 : spikeE3.direction 1 = (⟨0, -1⟩ : Vector2) := by
      simp only [spikeE3, EdgeSegment.direction, Vector2.subtract]
      exact congrArg₂ Vector2.mk (by norm_num) (by norm_num)
    have hic0 : isCorner ((spikeE3.direction 1).normalize true)
        ((spikeE0.direction 0).normalize true) (Real.sin 0) := by
      rw [hd31, hd00, normalize_unit 0 (-1) (by norm_num),
        normalize_unit 1 0 (by norm_num)]
      exact Or.inl (by norm_num [dotProduct])
    have hic1 : isCorner ((spikeE0.direction 1).normalize true)
        ((spikeE1.direction 0).normalize true) (Real.sin 0) := by
      rw [hd01, hd10, normalize_unit 1 0 (by norm_num),
        normalize_unit (-1) 0 (by norm_num)]
      exact Or.inl (by norm_num [dotProduct])
    have hic2 : isCorner ((spikeE1.direction 1).normalize true)
        ((spikeE2.direction 0).normalize true) (Real.sin 0) := by
      rw [hd11, hd20, normalize_unit (-1) 0 (by norm_num),
        normalize_unit 0 1 (by norm_num)]
      exact Or.inl (by norm_num [dotProduct])
    have hic3 : isCorner ((spikeE2.direction 1).normalize true)
        ((spikeE3.direction 0).normalize true) (Real.sin 0) := by
      rw [hd21, hd30, normalize_unit 0 1 (by norm_num),
        normalize_unit 0 (-1) (by norm_num)]
      exact Or.inl (by norm_num [dotProduct])
    rw [show detectCorners spikeEdges (Real.sin 0) =
      (spikeEdges.foldl (fun (acc : List ℕ × Vector2 × ℕ) edge =>
        (if isCorner (acc.2.1.normalize true)
            ((edge.direction 0).normalize true) (Real.sin 0)
          then acc.1 ++ [acc.2.2] else acc.1,
          edge.direction 1, acc.2.2 + 1)) ([], spikeE3.direction 1, 0)).1
      from rfl]
    simp only [spikeEdges, List.foldl_cons, List.foldl_nil]
    rw [if_pos hic0, if_pos hic1, if_pos hic2, if_pos hic3]
    simp
  · intro i hi j hj
    fin_cases hi <;> fin_cases hj <;>
      rw [splineToSpline_single, if_pos MAX_VALUE_pos,
        hz _ (by simp [spikeEdges]) _ (by simp [spikeEdges]),
        min_eq_right (le_of_lt MAX_VALUE_pos)]

/-- Witness for C10: on the one-edge smooth shape with angleThreshold 0
and seed 0, the single edge of the single output contour is recolored
MAGENTA, one of the allowed colors. -/
theorem C10_edgeColoringSimple_colors_witness :
    ((⟨[horizEdge.setColor MAGENTA]⟩ : Contour) ∈
      (edgeColoringSimple horizShape 0 0).contours) ∧
    (horizEdge.setColor MAGENTA ∈
      (⟨[horizEdge.setColor MAGENTA]⟩ : Contour).edges) ∧
    ((horizEdge.setColor MAGENTA).color = CYAN ∨
      (horizEdge.setColor MAGENTA).color = MAGENTA ∨
      (horizEdge.setColor MAGENTA).color = YELLOW ∨
      (horizEdge.setColor MAGENTA).color = WHITE) := by
  have hd0 : horizEdge.direction 0 = (⟨1, 0⟩ : Vector2) := by
    simp only [horizEdge, EdgeSegment.direction, Vector2.subtract]
    exact congrArg₂ Vector2.mk (by norm_num) (by norm_num)
  have hd1 : horizEdge.direction 1 = (⟨1, 0⟩ : Vector2) := by
    simp only [horizEdge, EdgeSegment.direction, Vector2.subtract]
    exact congrArg₂ Vector2.mk (by norm_num) (by norm_num)
  have hnc : ¬ isCorner ((horizEdge.direction 1).normalize true)
      ((horizEdge.direction 0).normalize true) (Real.sin 0) := by
    rw [hd0, hd1, normalize_unit 1 0 (by norm_num)]
    rintro (h | h)
    · norm_num [dotProduct] at h
    · rw [Real.sin_zero] at h
      norm_num [crossProduct] at h
  have hdc : detectCorners [horizEdge] (Real.sin 0) = [] := by
    rw [show detectCorners [horizEdge] (Real.sin 0) =
      (([horizEdge] : List EdgeSegment).foldl
        (fun (acc : List ℕ × Vector2 × ℕ) edge =>
          (if isCorner (acc.2.1.normalize true)
              ((edge.direction 0).normalize true) (Real.sin 0)
            then acc.1 ++ [acc.2.2] else acc.1,
            edge.direction 1, acc.2.2 + 1))
        ([], horizEdge.direction 1, 0)).1 from rfl]
    simp only [List.foldl_cons, List.foldl_nil]
    rw [if_neg hnc]
  have hsw : switchColor 0 CYAN BLACK = (MAGENTA, 0) := by
    unfold switchColor
    rw [if_neg (by decide)]
    rfl
  have hcc : colorContourSimple (Real.sin 0) ⟨[horizEdge]⟩ CYAN 0 =
      (⟨[horizEdge.setColor MAGENTA]⟩, MAGENTA, 0) := by
    simp only [colorContourSimple]
    rw [if_neg (by norm_num)]
    simp only [hdc, hsw, List.map_cons, List.map_nil]
  have hout : (edgeColoringSimple horizShape 0 0).contours =
      [⟨[horizEdge.setColor MAGENTA]⟩] := by
    simp only [edgeColoringSimple, horizShape, List.foldl_cons,
      List.foldl_nil, colorShapeStep]
    rw [show initColor 0 = (CYAN, 0) from rfl]
    simp only [hcc, List.nil_append]
  have hmem1 : (⟨[horizEdge.setColor MAGENTA]⟩ : Contour) ∈
      (edgeColoringSimple horizShape 0 0).contours := by
    rw [hout]
    exact List.mem_singleton.mpr rfl
  have hmem2 : horizEdge.setColor MAGENTA ∈
      (⟨[horizEdge.setColor MAGENTA]⟩ : Contour).edges :=
    List.mem_singleton.mpr rfl
  exact ⟨hmem1, hmem2, C10_edgeColoringSimple_colors horizShape 0 0 _ hmem1
    _ hmem2⟩

end Msdf
